import Mathlib

/-!
Verification development for the go-jsonxtractr streaming JSON value
extractor.  The Go sources under verification are `extract_state.go`
(the path-navigation state machine) and `value_extractor.go` (the
single- and multi-selector extraction operations).

The external token cursor (`encoding/json/jsontext.Decoder`) is, per the
specification, a collaborator the core depends on but does not
reimplement.  We model it as a list of tokens (`JTok`) consumed from the
front: `peekKind` models `Decoder.PeekKind`, `readToken` models
`Decoder.ReadToken`, and `skipValue` models `Decoder.SkipValue`.  The
model reports end-of-input as the invalid kind, exactly as the real
cursor does; lower-level lexical concerns of the real tokenizer (byte
syntax errors, duplicate-name checks) live below this abstraction.
-/

/-- Token kinds as reported by the cursor's peek operation
(`jsontext.Kind`).  `kInvalid` is the zero kind returned at
end of input. -/
inductive JKind where
  | kInvalid
  | kNull
  | kFalse
  | kTrue
  | kString
  | kNumber
  | kObjStart
  | kObjEnd
  | kArrStart
  | kArrEnd
deriving DecidableEq, Repr

/-- One JSON token of the cursor's stream.  String values and object
keys are carried in decoded (unescaped, unquoted) form, which is what
`jsontext.Token.String` exposes for string tokens.  Integer and float
number literals are distinguished at the token level; Go decodes both
into `float64`, which we model with `Rat`. -/
inductive JTok where
  | null
  | bool (b : Bool)
  | int (n : Int)
  | float (q : Rat)
  | str (s : String)
  | objStart
  | objEnd
  | arrStart
  | arrEnd
deriving DecidableEq, Repr

/-- The kind of a single token. -/
def JTok.kind : JTok → JKind
  | .null => .kNull
  | .bool true => .kTrue
  | .bool false => .kFalse
  | .int _ => .kNumber
  | .float _ => .kNumber
  | .str _ => .kString
  | .objStart => .kObjStart
  | .objEnd => .kObjEnd
  | .arrStart => .kArrStart
  | .arrEnd => .kArrEnd

/-- `Decoder.PeekKind`: the kind of the next token without consuming it;
the invalid kind at end of input. -/
def peekKind : List JTok → JKind
  | [] => .kInvalid
  | t :: _ => t.kind

/-- `Decoder.ReadToken`: consume one token; fails at end of input. -/
def readToken : List JTok → Option (JTok × List JTok)
  | [] => none
  | t :: rest => some (t, rest)

/-- Depth-tracking worker for `skipValue`.  `d` is the number of
currently open containers of the value being skipped. -/
def skipAux : Nat → List JTok → Option (List JTok)
  | _, [] => none
  | d, .arrStart :: rest => skipAux (d + 1) rest
  | d, .objStart :: rest => skipAux (d + 1) rest
  | 0, .arrEnd :: _ => none
  | 1, .arrEnd :: rest => some rest
  | (d + 2), .arrEnd :: rest => skipAux (d + 1) rest
  | 0, .objEnd :: _ => none
  | 1, .objEnd :: rest => some rest
  | (d + 2), .objEnd :: rest => skipAux (d + 1) rest
  | 0, .null :: rest => some rest
  | (d + 1), .null :: rest => skipAux (d + 1) rest
  | 0, .bool _ :: rest => some rest
  | (d + 1), .bool _ :: rest => skipAux (d + 1) rest
  | 0, .int _ :: rest => some rest
  | (d + 1), .int _ :: rest => skipAux (d + 1) rest
  | 0, .float _ :: rest => some rest
  | (d + 1), .float _ :: rest => skipAux (d + 1) rest
  | 0, .str _ :: rest => some rest
  | (d + 1), .str _ :: rest => skipAux (d + 1) rest

/-- `Decoder.SkipValue`: skip one entire JSON value (scalar, array or
object); fails at end of input, or when positioned at a container end
token rather than a value. -/
def skipValue (ts : List JTok) : Option (List JTok) :=
  skipAux 0 ts

mutual
/-- A well-formed JSON document/value.  Object fields are kept in
document order and keys are the decoded key strings.  Integer and float
number literals are separate constructors, mirroring the two lexical
shapes of JSON numbers. -/
inductive Json : Type where
  | null : Json
  | bool (b : Bool) : Json
  | int (n : Int) : Json
  | float (q : Rat) : Json
  | str (s : String) : Json
  | arr (elems : JsonArr) : Json
  | obj (fields : JsonObj) : Json
/-- Ordered list of array elements. -/
inductive JsonArr : Type where
  | nil : JsonArr
  | cons (hd : Json) (tl : JsonArr) : JsonArr
/-- Ordered list of object fields (key / value pairs). -/
inductive JsonObj : Type where
  | nil : JsonObj
  | cons (key : String) (val : Json) (tl : JsonObj) : JsonObj
end

mutual
/-- Token-stream serialization of a JSON value, i.e. the token sequence
the external tokenizer hands the navigator for this value. -/
def Json.toTokens : Json → List JTok
  | .null => [.null]
  | .bool b => [.bool b]
  | .int n => [.int n]
  | .float q => [.float q]
  | .str s => [.str s]
  | .arr es => .arrStart :: (JsonArr.toTokens es ++ [.arrEnd])
  | .obj fs => .objStart :: (JsonObj.toTokens fs ++ [.objEnd])
/-- Token serialization of array elements, in order. -/
def JsonArr.toTokens : JsonArr → List JTok
  | .nil => []
  | .cons v tl => Json.toTokens v ++ JsonArr.toTokens tl
/-- Token serialization of object fields: key token then value tokens,
in order. -/
def JsonObj.toTokens : JsonObj → List JTok
  | .nil => []
  | .cons k v tl => .str k :: (Json.toTokens v ++ JsonObj.toTokens tl)
end

/-- Number of elements of an array. -/
def JsonArr.length : JsonArr → Nat
  | .nil => 0
  | .cons _ tl => tl.length + 1

/-- The element at a zero-based index, when in range. -/
def JsonArr.get? : JsonArr → Nat → Option Json
  | .nil, _ => none
  | .cons v _, 0 => some v
  | .cons _ tl, n + 1 => tl.get? n

/-- The array with its first `n` elements removed. -/
def JsonArr.drop : JsonArr → Nat → JsonArr
  | es, 0 => es
  | .nil, _ + 1 => .nil
  | .cons _ tl, n + 1 => tl.drop n

mutual
/-- The dynamic value type the final decode produces (Go `any` filled by
`jsonv2.UnmarshalDecode`): null, boolean, number (every JSON number,
integer or float, decodes to `float64`, modelled as one `num` variant),
string, array, object. -/
inductive DynVal : Type where
  | null : DynVal
  | bool (b : Bool) : DynVal
  | num (q : Rat) : DynVal
  | str (s : String) : DynVal
  | arr (elems : DynArr) : DynVal
  | obj (fields : DynObj) : DynVal
/-- Ordered list of decoded array elements. -/
inductive DynArr : Type where
  | nil : DynArr
  | cons (hd : DynVal) (tl : DynArr) : DynArr
/-- Decoded object fields in document order. -/
inductive DynObj : Type where
  | nil : DynObj
  | cons (key : String) (val : DynVal) (tl : DynObj) : DynObj
end

mutual
/-- The dynamic value a JSON document denotes once decoded: shape is
preserved and both number forms collapse to the single number
variant. -/
def dynOfJson : Json → DynVal
  | .null => .null
  | .bool b => .bool b
  | .int n => .num (n : Rat)
  | .float q => .num q
  | .str s => .str s
  | .arr es => .arr (dynOfArr es)
  | .obj fs => .obj (dynOfObj fs)
/-- Element-wise decoding of an array. -/
def dynOfArr : JsonArr → DynArr
  | .nil => .nil
  | .cons v tl => .cons (dynOfJson v) (dynOfArr tl)
/-- Field-wise decoding of an object. -/
def dynOfObj : JsonObj → DynObj
  | .nil => .nil
  | .cons k v tl => .cons k (dynOfJson v) (dynOfObj tl)
end

mutual
/-- Fuel-bounded decoder for one JSON value at the front of the token
stream, modelling `jsonv2.UnmarshalDecode` into `any`: `none` is a
decode failure (truncated or malformed stream, or fuel exhaustion). -/
def decodeVal : Nat → List JTok → Option (DynVal × List JTok)
  | 0, _ => none
  | _ + 1, [] => none
  | _ + 1, .null :: rest => some (.null, rest)
  | _ + 1, .bool b :: rest => some (.bool b, rest)
  | _ + 1, .int n :: rest => some (.num (n : Rat), rest)
  | _ + 1, .float q :: rest => some (.num q, rest)
  | _ + 1, .str s :: rest => some (.str s, rest)
  | f + 1, .arrStart :: rest =>
    match decodeArr f rest with
    | none => none
    | some (es, rest2) => some (.arr es, rest2)
  | f + 1, .objStart :: rest =>
    match decodeObj f rest with
    | none => none
    | some (fs, rest2) => some (.obj fs, rest2)
  | _ + 1, .arrEnd :: _ => none
  | _ + 1, .objEnd :: _ => none
/-- Decode array elements up to the closing array token. -/
def decodeArr : Nat → List JTok → Option (DynArr × List JTok)
  | 0, _ => none
  | _ + 1, [] => none
  | _ + 1, .arrEnd :: rest => some (.nil, rest)
  | f + 1, t :: rest =>
    match decodeVal f (t :: rest) with
    | none => none
    | some (v, rest2) =>
      match decodeArr f rest2 with
      | none => none
      | some (tl, rest3) => some (.cons v tl, rest3)
/-- Decode object fields up to the closing object token. -/
def decodeObj : Nat → List JTok → Option (DynObj × List JTok)
  | 0, _ => none
  | _ + 1, [] => none
  | _ + 1, .objEnd :: rest => some (.nil, rest)
  | f + 1, .str k :: rest =>
    match decodeVal f rest with
    | none => none
    | some (v, rest2) =>
      match decodeObj f rest2 with
      | none => none
      | some (tl, rest3) => some (.cons k v tl, rest3)
  | _ + 1, _ :: _ => none
end

/-- Decode the next value of the stream; the stream length bounds the
fuel any successful decode can need. -/
def decodeValue (ts : List JTok) : Option (DynVal × List JTok) :=
  decodeVal ts.length ts

/-- Sentinel error identities of the package (`errors.go`), each a
stable, programmatically distinguishable category. -/
inductive Sent where
  | jsonBodyCannotBeEmpty
  | jsonIndexOutOfRange
  | jsonPathContainsEmptySegment
  | jsonPathExpectedArrayAtSegment
  | jsonPathExpectedObjectAtSegment
  | jsonPathSegmentNotFound
  | jsonPathTraversalFailed
  | jsonReadFailed
  | jsonStreamingParseFailed
  | jsonTokenReadFailed
  | jsonUnmarshalFailed
  | jsonValueSelectorCannotBeEmpty
  | jsonSelectorNotFound
  | extractingFromJSONByReader
  | extractingFromJSONBytes
  | extractingJSONBodyValues
  | failedToExtractValueFromJSON
deriving DecidableEq, Repr

/-- A diagnostic context value attached under a string key: the error
helpers receive integers, strings, string lists (selectors, available
keys, path progress). -/
inductive CtxV where
  | int (n : Int)
  | str (s : String)
  | strs (l : List String)
deriving DecidableEq, Repr

/-- A structured error value: the sentinel identities it carries, its
ordered key/value diagnostic context, and the wrapped cause errors.
`errors.Is` against a sentinel holds when the sentinel appears here or
in any wrapped cause. -/
inductive JErr : Type where
  | mk (sentinels : List Sent) (ctx : List (String × CtxV)) (causes : List JErr)

/-- Sentinel identities carried directly by this error. -/
def JErr.sentinels : JErr → List Sent
  | .mk s _ _ => s

/-- Key/value diagnostic context of this error. -/
def JErr.ctx : JErr → List (String × CtxV)
  | .mk _ c _ => c

/-- Wrapped cause errors of this error. -/
def JErr.causes : JErr → List JErr
  | .mk _ _ c => c

mutual
/-- `errors.Is(e, sentinel)`: the sentinel is carried by the error
itself or anywhere in its wrapped causes. -/
def errIs : JErr → Sent → Bool
  | .mk s _ cs, t => s.contains t || errsAny cs t
/-- Some error of the list matches the sentinel. -/
def errsAny : List JErr → Sent → Bool
  | [], _ => false
  | e :: es, t => errIs e t || errsAny es t
end

/-- One argument of the variadic error constructors: a sentinel, a
key/value context pair, or a wrapped cause error. -/
inductive ErrPart where
  | sent (s : Sent)
  | kv (k : String) (v : CtxV)
  | cause (e : JErr)

/-- Modelled from the spec: the error-construction helper `NewErr` is
not part of the repository sources (only its call sites are).  Per the
spec's Error Context Builder contract it takes "one or more categorized
error kinds plus arbitrary key/value diagnostic pairs and an optional
wrapped cause" and produces one structured error carrying all of them,
each sentinel remaining programmatically distinguishable and each cause
inspectable.  `ErrPart.sentOf` extracts the sentinel of a part, when it
is one. -/
def ErrPart.sentOf : ErrPart → Option Sent
  | .sent s => some s
  | _ => none

/-- The key/value pair of a part, when it is one. -/
def ErrPart.kvOf : ErrPart → Option (String × CtxV)
  | .kv k v => some (k, v)
  | _ => none

/-- The wrapped cause of a part, when it is one. -/
def ErrPart.causeOf : ErrPart → Option JErr
  | .cause e => some e
  | _ => none

def NewErr (parts : List ErrPart) : JErr :=
  .mk (parts.filterMap ErrPart.sentOf)
      (parts.filterMap ErrPart.kvOf)
      (parts.filterMap ErrPart.causeOf)

/-- Modelled from the spec: `WithErr` (not in the repository sources) is
used exactly like `NewErr` at its call sites — sentinels, key/value
pairs and a trailing cause. -/
def WithErr (parts : List ErrPart) : JErr :=
  NewErr parts

/-- Modelled from the spec: `CombineErrs` (not in the repository
sources) joins the collected per-selector errors into one aggregated
error "so each remains inspectable"; we model it as an error wrapping
every given error as a cause. -/
def CombineErrs (errs : List JErr) : JErr :=
  .mk [] [] errs

/-- The opening brace character. -/
def braceOpen : Char := Char.ofNat 123

/-- The closing brace character. -/
def braceClose : Char := Char.ofNat 125

/-- The double-quote character. -/
def quoteChar : Char := Char.ofNat 34

/-- Rendering of a token kind used for the `actual_type` diagnostic
(`jsontext.Kind.String`). -/
def JKind.name : JKind → String
  | .kInvalid => "<invalid>"
  | .kNull => "null"
  | .kFalse => "false"
  | .kTrue => "true"
  | .kString => "string"
  | .kNumber => "number"
  | .kObjStart => "\x7b"
  | .kObjEnd => "\x7d"
  | .kArrStart => "["
  | .kArrEnd => "]"

/-- `jsontext.Token.String`: the decoded string value for string tokens,
the raw representation for everything else. -/
def JTok.string : JTok → String
  | .str s => s
  | .null => "null"
  | .bool true => "true"
  | .bool false => "false"
  | .int n => toString n
  | .float q => toString q
  | .objStart => "\x7b"
  | .objEnd => "\x7d"
  | .arrStart => "["
  | .arrEnd => "]"

/-- The fixpoint of repeatedly replacing two consecutive spaces by one
(`for strings.Contains(formatted, "  ") { ReplaceAll("  ", " ") }`):
every maximal run of spaces collapses to a single space. -/
def collapseSpacesAux : List Char → List Char
  | [] => []
  | ' ' :: ' ' :: rest => collapseSpacesAux (' ' :: rest)
  | c :: rest => c :: collapseSpacesAux rest
termination_by l => l.length

/-- `strings.LastIndex` for a single character: the index of its last
occurrence, `-1` when absent. -/
def lastIndexOf : List Char → Char → Int
  | [], _ => -1
  | c :: rest, t =>
    let r := lastIndexOf rest t
    if 0 ≤ r then r + 1 else if c == t then 0 else -1

/-- `truncateAtJSONBoundary`: truncate at logical JSON structure points
(the last comma / closing brace / closing bracket of the truncated
prefix), falling back to a plain cut. -/
def truncateAtJSONBoundary (jsonStr : String) (maxLen : Nat) : String :=
  if jsonStr.length ≤ maxLen then jsonStr
  else
    let truncated := jsonStr.data.take (maxLen - 10)
    let lastComma := lastIndexOf truncated ','
    let lastBrace := lastIndexOf truncated braceClose
    let lastBracket := lastIndexOf truncated ']'
    let cut1 := lastComma
    let cut2 := if cut1 < lastBrace then lastBrace + 1 else cut1
    let cutPoint := if cut2 < lastBracket then lastBracket + 1 else cut2
    if 50 < cutPoint then String.mk (jsonStr.data.take cutPoint.toNat) ++ "...[more]"
    else String.mk (jsonStr.data.take (maxLen - 10)) ++ "...[more]"

/-- `condensedJSON`: the bounded human-readable rendering of the raw
document attached to every enriched error.  Short documents are
rendered verbatim; longer ones have newlines/tabs flattened, space runs
collapsed, and are truncated at a JSON boundary past 200 characters. -/
def condensedJSON (rawBytes : String) : String :=
  if rawBytes.length = 0 then "JSON not available"
  else if rawBytes.length ≤ 100 then rawBytes
  else
    let flat := rawBytes.data.map fun c => if c == '\n' || c == '\t' then ' ' else c
    let collapsed := String.mk (collapseSpacesAux flat)
    if 200 < collapsed.length then truncateAtJSONBoundary collapsed 200 else collapsed

/-- Worker for `splitDot`: characters of the current segment are
accumulated in reverse. -/
def splitDotAux : List Char → List Char → List String
  | [], acc => [String.mk acc.reverse]
  | c :: rest, acc =>
    if c = '.' then String.mk acc.reverse :: splitDotAux rest []
    else splitDotAux rest (c :: acc)

/-- `strings.Split(selector, ".")`: the selector text split around
every dot.  Empty segments appear between consecutive dots and at a
leading or trailing dot, and the empty selector splits to one empty
segment. -/
def splitDot (s : String) : List String :=
  splitDotAux s.data []

/-- The per-selector, per-traversal extraction session of
`extract_state.go`: original selector, its segment sequence, the
segments successfully consumed so far, the current segment index, and
the buffered raw document (for diagnostics only).  The token cursor is
threaded alongside explicitly. -/
structure extractState where
  selector : String
  segments : List String
  pathProgress : List String
  position : Nat
  rawBytes : String

/-- `newExtractState`: segments are obtained by splitting the selector
on the dot character. -/
def newExtractState (selector : String) (rawBytes : String) : extractState :=
  { selector := selector
    segments := splitDot selector
    pathProgress := []
    position := 0
    rawBytes := rawBytes }

/-- `extractState.enrichError`: attach the session context (selector
text, current segment and its index when in range, accumulated path
progress when non-empty, condensed document rendering) between the
leading sentinels and the caller's remaining diagnostic parts. -/
def extractState.enrichError (s : extractState) (sentinels : List Sent)
    (extra : List ErrPart) : JErr :=
  NewErr ((sentinels.map ErrPart.sent)
    ++ [ErrPart.kv "json_path" (.str s.selector)]
    ++ (if s.position < s.segments.length then
          [ErrPart.kv "segment" (.str (s.segments.getD s.position "")),
           ErrPart.kv "segment_position" (.int (s.position : Int))]
        else [])
    ++ (if 0 < s.pathProgress.length then
          [ErrPart.kv "path_progress" (.strs s.pathProgress)]
        else [])
    ++ [ErrPart.kv "condensed_json" (.str (condensedJSON s.rawBytes))]
    ++ extra)

/-- `strconv.Atoi` with 64-bit range: an optional sign followed by one
or more decimal digits, rejected when the value overflows a 64-bit
integer. -/
def atoi (s : String) : Option Int :=
  match s.data with
  | [] => none
  | c :: rest =>
    let signed : Bool × List Char :=
      if c == '-' then (true, rest)
      else if c == '+' then (false, rest)
      else (false, c :: rest)
    if signed.2.isEmpty then none
    else if signed.2.all Char.isDigit then
      let n : Nat := signed.2.foldl (fun a c2 => a * 10 + (c2.toNat - 48)) 0
      let v : Int := if signed.1 then -(n : Int) else (n : Int)
      if v < -(2 ^ 63) || 2 ^ 63 - 1 < v then none else some v
    else none

/-- The quote removal applied to each decoded key before comparison
(`extract_state.go` lines 168-178): a leading and trailing double-quote
character of the decoded key string is stripped. -/
def stripQuotes (key : String) : String :=
  let cs := key.data
  if 2 ≤ cs.length && cs.headD ' ' == quoteChar && cs.getLastD ' ' == quoteChar then
    String.mk ((cs.drop 1).dropLast)
  else key

/-- Lemma for termination of the object-key search: reading a token
shortens the stream by one. -/
theorem readToken_length {ts : List JTok} {t : JTok} {ts1 : List JTok}
    (h : readToken ts = some (t, ts1)) : ts.length = ts1.length + 1 := by
  cases ts with
  | nil => simp [readToken] at h
  | cons a rest =>
    simp [readToken] at h
    simp [h.2]

/-- Skipping succeeds only by consuming at least one token. -/
theorem skipAux_length : ∀ (d : Nat) (ts ts2 : List JTok),
    skipAux d ts = some ts2 → ts2.length < ts.length := by
  intro d ts
  induction ts generalizing d with
  | nil => intro ts2 h; simp [skipAux] at h
  | cons t rest ih =>
    intro ts2 h
    cases t with
    | arrStart =>
      simp only [skipAux] at h
      have := ih (d + 1) ts2 h
      simp; omega
    | objStart =>
      simp only [skipAux] at h
      have := ih (d + 1) ts2 h
      simp; omega
    | arrEnd =>
      match d with
      | 0 => simp [skipAux] at h
      | 1 => simp only [skipAux, Option.some.injEq] at h; simp [← h]
      | d2 + 2 =>
        simp only [skipAux] at h
        have := ih (d2 + 1) ts2 h
        simp; omega
    | objEnd =>
      match d with
      | 0 => simp [skipAux] at h
      | 1 => simp only [skipAux, Option.some.injEq] at h; simp [← h]
      | d2 + 2 =>
        simp only [skipAux] at h
        have := ih (d2 + 1) ts2 h
        simp; omega
    | null =>
      match d with
      | 0 => simp only [skipAux, Option.some.injEq] at h; simp [← h]
      | d2 + 1 =>
        simp only [skipAux] at h
        have := ih (d2 + 1) ts2 h
        simp; omega
    | bool b =>
      match d with
      | 0 => simp only [skipAux, Option.some.injEq] at h; simp [← h]
      | d2 + 1 =>
        simp only [skipAux] at h
        have := ih (d2 + 1) ts2 h
        simp; omega
    | int n =>
      match d with
      | 0 => simp only [skipAux, Option.some.injEq] at h; simp [← h]
      | d2 + 1 =>
        simp only [skipAux] at h
        have := ih (d2 + 1) ts2 h
        simp; omega
    | float q =>
      match d with
      | 0 => simp only [skipAux, Option.some.injEq] at h; simp [← h]
      | d2 + 1 =>
        simp only [skipAux] at h
        have := ih (d2 + 1) ts2 h
        simp; omega
    | str s =>
      match d with
      | 0 => simp only [skipAux, Option.some.injEq] at h; simp [← h]
      | d2 + 1 =>
        simp only [skipAux] at h
        have := ih (d2 + 1) ts2 h
        simp; omega

/-- Skipping a value consumes at least one token. -/
theorem skipValue_length {ts ts2 : List JTok} (h : skipValue ts = some ts2) :
    ts2.length < ts.length :=
  skipAux_length 0 ts ts2 h

/-- Counted form of the element-skipping loop of `navigateArrayIndex`:
`remaining` is the exact number of iterations the loop
`for currentIdx < targetIdx` still has to run, namely
`(targetIdx - currentIdx).toNat`. -/
def navArrayLoopAux (s : extractState) (targetIdx : Int) :
    Nat → Nat → List JTok → Except JErr (Nat × List JTok)
  | 0, currentIdx, ts => .ok (currentIdx, ts)
  | r + 1, currentIdx, ts =>
    if peekKind ts = .kArrEnd then
      .error (s.enrichError [.jsonPathTraversalFailed, .jsonIndexOutOfRange]
        [.kv "target_index" (.int targetIdx), .kv "array_length" (.int (currentIdx : Int))])
    else
      match skipValue ts with
      | none =>
        .error (s.enrichError [.jsonPathTraversalFailed, .jsonTokenReadFailed]
          [.kv "skip_index" (.int (currentIdx : Int))])
      | some ts2 => navArrayLoopAux s targetIdx r (currentIdx + 1) ts2

/-- The element-skipping loop of `navigateArrayIndex`: starting from a
running index, repeatedly peek — failing with `IndexOutOfRange` when the
array end is reached early — and skip one full value, until the running
index reaches the target.  Returns the final running index together
with the cursor.  `navArrayLoop_eq` below shows this counted form
satisfies the loop's defining equation verbatim. -/
def navArrayLoop (s : extractState) (targetIdx : Int) (currentIdx : Nat) (ts : List JTok) :
    Except JErr (Nat × List JTok) :=
  navArrayLoopAux s targetIdx (targetIdx - currentIdx).toNat currentIdx ts

/-- The counted loop satisfies the Go loop equation: test the loop
condition, peek for an early array end, skip one value, recurse with
the running index advanced. -/
theorem navArrayLoop_eq (s : extractState) (targetIdx : Int) (currentIdx : Nat)
    (ts : List JTok) :
    navArrayLoop s targetIdx currentIdx ts =
      if (currentIdx : Int) < targetIdx then
        if peekKind ts = .kArrEnd then
          .error (s.enrichError [.jsonPathTraversalFailed, .jsonIndexOutOfRange]
            [.kv "target_index" (.int targetIdx),
             .kv "array_length" (.int (currentIdx : Int))])
        else
          match skipValue ts with
          | none =>
            .error (s.enrichError [.jsonPathTraversalFailed, .jsonTokenReadFailed]
              [.kv "skip_index" (.int (currentIdx : Int))])
          | some ts2 => navArrayLoop s targetIdx (currentIdx + 1) ts2
      else .ok (currentIdx, ts) := by
  by_cases h : (currentIdx : Int) < targetIdx
  · rw [if_pos h]
    have hr : (targetIdx - currentIdx).toNat = (targetIdx - (currentIdx + 1)).toNat + 1 := by
      omega
    rw [navArrayLoop, hr, navArrayLoopAux]
    rfl
  · rw [if_neg h]
    have hr : (targetIdx - currentIdx).toNat = 0 := by omega
    rw [navArrayLoop, hr, navArrayLoopAux]

/-- `navigateArrayIndex`: a negative target index fails immediately with
`IndexOutOfRange`; a non-array peeked kind fails with
`ExpectedArrayAtSegment`; otherwise the array start token is consumed
and elements are skipped up to the target index, with a final
end-of-array check catching a target index equal to the length. -/
def navigateArrayIndex (s : extractState) (targetIdx : Int) (ts : List JTok) :
    Except JErr (List JTok) :=
  let kind := peekKind ts
  if targetIdx < 0 then
    .error (s.enrichError [.jsonPathTraversalFailed, .jsonIndexOutOfRange]
      [.kv "target_index" (.int targetIdx)])
  else if kind ≠ .kArrStart then
    .error (s.enrichError [.jsonPathTraversalFailed, .jsonPathExpectedArrayAtSegment]
      [.kv "expected_type" (.str "array"), .kv "actual_type" (.str kind.name)])
  else
    match readToken ts with
    | none =>
      .error (s.enrichError [.jsonPathTraversalFailed, .jsonTokenReadFailed]
        [.kv "expected_token" (.str "array_start")])
    | some (_, ts1) =>
      match navArrayLoop s targetIdx 0 ts1 with
      | .error e => .error e
      | .ok (currentIdx, ts2) =>
        if peekKind ts2 = .kArrEnd then
          .error (s.enrichError [.jsonPathTraversalFailed, .jsonIndexOutOfRange]
            [.kv "target_index" (.int targetIdx), .kv "array_length" (.int (currentIdx : Int))])
        else .ok ts2

/-- Fuel-bounded form of the key-search loop of `navigateObjectKey`.
Every iteration consumes at least two tokens (a key and a skipped
value), so fuel equal to the stream length can never run out; the
fuel-exhausted arm is unreachable under that bound (`navObjectLoop_eq`
proves the loop's defining equation holds verbatim). -/
def navObjectLoopAux (s : extractState) (targetKey : String) :
    Nat → List String → List JTok → Except JErr (List JTok)
  | fuel, availableKeys, ts =>
    if peekKind ts ≠ .kObjEnd then
      match readToken ts with
      | none =>
        .error (s.enrichError [.jsonPathTraversalFailed, .jsonTokenReadFailed]
          [.kv "reading" (.str "object_key")])
      | some (keyToken, ts1) =>
        let key := stripQuotes keyToken.string
        let availableKeys2 := availableKeys ++ [key]
        if key == targetKey then .ok ts1
        else
          match skipValue ts1 with
          | none =>
            .error (s.enrichError [.jsonPathTraversalFailed, .jsonTokenReadFailed]
              [.kv "skipping_key" (.str key)])
          | some ts2 =>
            match fuel with
            | 0 =>
              .error (s.enrichError [.jsonPathTraversalFailed, .jsonTokenReadFailed]
                [.kv "reading" (.str "object_key")])
            | f + 1 => navObjectLoopAux s targetKey f availableKeys2 ts2
    else
      .error (s.enrichError [.jsonPathTraversalFailed, .jsonPathSegmentNotFound]
        [.kv "missing_key" (.str targetKey), .kv "available_keys" (.strs availableKeys)])

/-- The key-search loop of `navigateObjectKey`: while the peeked kind is
not the object end, read a key token, strip quotes from its decoded
string, record it among the available keys, stop on a match (the value
is next, unconsumed), otherwise skip the value and continue; reaching
the object end yields `PathSegmentNotFound` with the accumulated
available keys. -/
def navObjectLoop (s : extractState) (targetKey : String) (availableKeys : List String)
    (ts : List JTok) : Except JErr (List JTok) :=
  navObjectLoopAux s targetKey ts.length availableKeys ts

/-- The fuel argument is irrelevant whenever it bounds the stream
length (up to the one token the final read may consume). -/
theorem navObjectLoopAux_irrel (s : extractState) (targetKey : String) :
    ∀ (n f1 f2 : Nat) (acc : List String) (ts : List JTok),
      ts.length ≤ n → ts.length ≤ f1 + 1 → ts.length ≤ f2 + 1 →
      navObjectLoopAux s targetKey f1 acc ts = navObjectLoopAux s targetKey f2 acc ts := by
  intro n
  induction n with
  | zero =>
    intro f1 f2 acc ts hn h1 h2
    have hts : ts = [] := by
      cases ts with
      | nil => rfl
      | cons t ts1 => simp at hn
    subst hts
    rw [navObjectLoopAux, navObjectLoopAux]
    simp [peekKind, readToken]
  | succ n2 ih =>
    intro f1 f2 acc ts hn h1 h2
    rw [navObjectLoopAux]
    conv_rhs => rw [navObjectLoopAux]
    by_cases hpk : peekKind ts ≠ .kObjEnd
    · rw [if_pos hpk, if_pos hpk]
      cases ts with
      | nil => rfl
      | cons t ts1 =>
        simp only [readToken]
        simp only [List.length_cons] at h1 h2 hn
        by_cases hkey : (stripQuotes t.string == targetKey) = true
        · rw [if_pos hkey, if_pos hkey]
        · rw [if_neg hkey, if_neg hkey]
          cases hsv : skipValue ts1 with
          | none => rfl
          | some ts2 =>
            have hlen2 := skipValue_length hsv
            have hlen1 : ts1.length + 1 ≤ n2 + 1 := by simpa using hn
            cases f1 with
            | zero =>
              have : ts1 = [] := by
                cases ts1 with
                | nil => rfl
                | cons a l => simp at h1
              rw [this] at hsv
              simp [skipValue, skipAux] at hsv
            | succ f1b =>
              cases f2 with
              | zero =>
                have : ts1 = [] := by
                  cases ts1 with
                  | nil => rfl
                  | cons a l => simp at h2
                rw [this] at hsv
                simp [skipValue, skipAux] at hsv
              | succ f2b =>
                simp only []
                exact ih f1b f2b (acc ++ [stripQuotes t.string]) ts2 (by omega) (by omega)
                  (by omega)
    · rw [if_neg hpk, if_neg hpk]

/-- The fuel-bounded loop satisfies the Go loop equation: peek for the
object end, read and unquote a key, stop on a match, otherwise skip the
value and recurse with the key recorded. -/
theorem navObjectLoop_eq (s : extractState) (targetKey : String) (availableKeys : List String)
    (ts : List JTok) :
    navObjectLoop s targetKey availableKeys ts =
      (if peekKind ts ≠ .kObjEnd then
        match readToken ts with
        | none =>
          .error (s.enrichError [.jsonPathTraversalFailed, .jsonTokenReadFailed]
            [.kv "reading" (.str "object_key")])
        | some (keyToken, ts1) =>
          let key := stripQuotes keyToken.string
          if key == targetKey then .ok ts1
          else
            match skipValue ts1 with
            | none =>
              .error (s.enrichError [.jsonPathTraversalFailed, .jsonTokenReadFailed]
                [.kv "skipping_key" (.str key)])
            | some ts2 => navObjectLoop s targetKey (availableKeys ++ [key]) ts2
      else
        .error (s.enrichError [.jsonPathTraversalFailed, .jsonPathSegmentNotFound]
          [.kv "missing_key" (.str targetKey),
           .kv "available_keys" (.strs availableKeys)])) := by
  rw [navObjectLoop, navObjectLoopAux]
  by_cases hpk : peekKind ts ≠ .kObjEnd
  · rw [if_pos hpk, if_pos hpk]
    cases ts with
    | nil => rfl
    | cons t ts1 =>
      simp only [readToken, List.length_cons]
      by_cases hkey : (stripQuotes t.string == targetKey) = true
      · rw [if_pos hkey, if_pos hkey]
      · rw [if_neg hkey, if_neg hkey]
        cases hsv : skipValue ts1 with
        | none => rfl
        | some ts2 =>
          have hlen2 := skipValue_length hsv
          simp only []
          rw [navObjectLoop]
          exact navObjectLoopAux_irrel s targetKey (ts2.length + 1) ts1.length ts2.length
            (availableKeys ++ [stripQuotes t.string]) ts2 (by omega) (by omega) (by omega)
  · rw [if_neg hpk, if_neg hpk]

/-- `navigateObjectKey`: a non-object peeked kind fails with
`ExpectedObjectAtSegment`; otherwise the object start token is consumed
and the key search runs with an empty available-keys accumulator. -/
def navigateObjectKey (s : extractState) (targetKey : String) (ts : List JTok) :
    Except JErr (List JTok) :=
  let kind := peekKind ts
  if kind ≠ .kObjStart then
    .error (s.enrichError [.jsonPathTraversalFailed, .jsonPathExpectedObjectAtSegment]
      [.kv "expected_type" (.str "object"), .kv "actual_type" (.str kind.name)])
  else
    match readToken ts with
    | none =>
      .error (s.enrichError [.jsonPathTraversalFailed, .jsonTokenReadFailed]
        [.kv "expected_token" (.str "object_start")])
    | some (_, ts1) => navObjectLoop s targetKey [] ts1

/-- `navigateToSegment`: a segment that parses as an integer is an array
index access; anything else is an object key access. -/
def navigateToSegment (s : extractState) (segment : String) (ts : List JTok) :
    Except JErr (List JTok) :=
  match atoi segment with
  | some idx => navigateArrayIndex s idx ts
  | none => navigateObjectKey s segment ts

/-- The segment loop of `extractSingleValue`: set the position, reject
an empty segment with `PathContainsEmptySegment`, otherwise navigate to
the segment and append it to the path progress. -/
def navSegments (s : extractState) (i : Nat) (segs : List String) (ts : List JTok) :
    Except JErr (extractState × List JTok) :=
  match segs with
  | [] => .ok (s, ts)
  | segment :: rest =>
    let s1 := { s with position := i }
    if segment = "" then
      .error (s1.enrichError [.jsonPathTraversalFailed, .jsonPathContainsEmptySegment] [])
    else
      match navigateToSegment s1 segment ts with
      | .error e => .error e
      | .ok ts2 =>
        navSegments { s1 with pathProgress := s1.pathProgress ++ [segment] } (i + 1) rest ts2

/-- A buffered document: the raw bytes (used for validation and
diagnostics) together with the token stream the external tokenizer
produces from them.  A fresh cursor over the buffered bytes is exactly
this token list. -/
structure RawDoc where
  raw : String
  toks : List JTok

/-- `extractSingleValue`: reject the empty selector, then navigate
through each dot-separated path segment and decode the value under the
cursor; a decode failure is reported as `StreamingParseFailed` wrapping
`UnmarshalFailed`.  (The low-level cause object of the external decoder
is below the token model and not carried.) -/
def extractSingleValue (doc : RawDoc) (selector : String) : Except JErr DynVal :=
  if selector.length = 0 then
    .error (NewErr [.sent .jsonPathTraversalFailed, .sent .jsonValueSelectorCannotBeEmpty])
  else
    let s := newExtractState selector doc.raw
    match navSegments s 0 s.segments doc.toks with
    | .error e => .error e
    | .ok (s2, ts2) =>
      match decodeValue ts2 with
      | none => .error (s2.enrichError [.jsonStreamingParseFailed, .jsonUnmarshalFailed] [])
      | some (v, _) => .ok v

/-- A dot-delimited path selector. -/
abbrev Selector := String

/-- The values map: one entry per successfully resolved selector.  The
Go map is modelled as an association list with unique keys;
`mapInsert` is map assignment (overwrite on an existing key). -/
abbrev ValuesMap := List (Selector × DynVal)

/-- Key membership of the values map. -/
def mapContains (m : ValuesMap) (k : Selector) : Bool :=
  m.any fun p => p.1 == k

/-- Map assignment `m[k] = v`. -/
def mapInsert (m : ValuesMap) (k : Selector) (v : DynVal) : ValuesMap :=
  if mapContains m k then m.map fun p => if p.1 == k then (k, v) else p
  else m ++ [(k, v)]

/-- Map lookup `m[k]`. -/
def mapGet (m : ValuesMap) (k : Selector) : Option DynVal :=
  (m.find? fun p => p.1 == k).map fun p => p.2

/-- The per-selector loop of `ExtractValuesFromReader`: each selector is
extracted independently against a fresh cursor over the buffered bytes;
successes are recorded in the values map, failures collected in order. -/
def extractLoop (doc : RawDoc) : List Selector → ValuesMap → List JErr → ValuesMap × List JErr
  | [], m, errs => (m, errs)
  | sel :: rest, m, errs =>
    match extractSingleValue doc sel with
    | .error e => extractLoop doc rest m (errs ++ [e])
    | .ok v => extractLoop doc rest (mapInsert m sel v) errs

/-- `ExtractValuesFromReader`: the batch orchestrator.  A nil reader or
an empty selector list is rejected immediately (with a nil values map
and not-found list); otherwise the buffered input is traversed once per
selector, the collected errors are joined when any exist, and the
not-found list is derived as every input selector absent from the
values map, in input order.  (The model's readers always deliver their
bytes, so the read-failure path of the Go code is not reachable
here.) -/
def ExtractValuesFromReader (reader : Option RawDoc) (selectors : List Selector) :
    Option ValuesMap × List Selector × Option JErr :=
  match reader with
  | none =>
    (none, [],
      some (NewErr [.sent .jsonPathTraversalFailed, .sent .jsonBodyCannotBeEmpty,
        .kv "selectors" (.strs selectors)]))
  | some doc =>
    if selectors.length = 0 then
      (none, [],
        some (NewErr [.sent .jsonPathTraversalFailed, .sent .jsonValueSelectorCannotBeEmpty]))
    else
      let res := extractLoop doc selectors [] []
      let err : Option JErr := if res.2.length = 0 then none else some (CombineErrs res.2)
      let notFound := selectors.filter fun s => !(mapContains res.1 s)
      (some res.1, notFound, err)

/-- `ExtractValuesFromBytes`: rejects an empty byte buffer with
`PathTraversalFailed` wrapping `BodyCannotBeEmpty`, otherwise delegates
to `ExtractValuesFromReader` over a reader of the same bytes. -/
def ExtractValuesFromBytes (doc : RawDoc) (selectors : List Selector) :
    Option ValuesMap × List Selector × Option JErr :=
  if doc.raw.length = 0 then
    (none, [],
      some (NewErr [.sent .jsonPathTraversalFailed, .sent .jsonBodyCannotBeEmpty,
        .kv "selectors" (.strs selectors)]))
  else ExtractValuesFromReader (some doc) selectors

/-- `ExtractValueFromReader`: drive the batch orchestrator with a
one-element selector list; wrap a non-nil batch error; otherwise
translate a non-empty not-found list or a missing map entry into
`SelectorNotFound`, and return the resolved value when present. -/
def ExtractValueFromReader (reader : Option RawDoc) (selector : Selector) :
    Except JErr DynVal :=
  match ExtractValuesFromReader reader [selector] with
  | (_, _, some err) =>
    .error (WithErr [.sent .failedToExtractValueFromJSON, .sent .extractingFromJSONByReader,
      .kv "selector" (.str selector), .cause err])
  | (valuesMap, notFound, none) =>
    if 0 < notFound.length then
      .error (NewErr [.sent .jsonSelectorNotFound, .sent .extractingFromJSONByReader,
        .kv "selector" (.str selector)])
    else
      match mapGet (valuesMap.getD []) selector with
      | none =>
        .error (NewErr [.sent .jsonSelectorNotFound, .sent .extractingFromJSONByReader,
          .kv "selector" (.str selector)])
      | some v => .ok v

/-- `ExtractValueFromBytes`: the byte-slice single-value convenience
wrapper, structured exactly like `ExtractValueFromReader` over
`ExtractValuesFromBytes`. -/
def ExtractValueFromBytes (doc : RawDoc) (selector : Selector) : Except JErr DynVal :=
  match ExtractValuesFromBytes doc [selector] with
  | (_, _, some err) =>
    .error (WithErr [.sent .failedToExtractValueFromJSON, .sent .extractingFromJSONBytes,
      .kv "selector" (.str selector), .cause err])
  | (valuesMap, notFound, none) =>
    if 0 < notFound.length then
      .error (NewErr [.sent .jsonSelectorNotFound, .sent .extractingFromJSONBytes,
        .kv "selector" (.str selector)])
    else
      match mapGet (valuesMap.getD []) selector with
      | none =>
        .error (NewErr [.sent .jsonSelectorNotFound, .sent .extractingFromJSONBytes,
          .kv "selector" (.str selector)])
      | some v => .ok v

/-- First object field whose quote-stripped key equals the target,
together with the fields after it. -/
def JsonObj.findSplit : JsonObj → String → Option (Json × JsonObj)
  | .nil, _ => none
  | .cons k v tl, target =>
    if stripQuotes k == target then some (v, tl) else tl.findSplit target

/-- First object field whose quote-stripped key equals the target. -/
def JsonObj.lookupStrip (fs : JsonObj) (target : String) : Option Json :=
  (fs.findSplit target).map fun p => p.1

/-- The quote-stripped keys of an object, in order: exactly the
available-keys accumulation of a full (unsuccessful) key search. -/
def JsonObj.strippedKeys : JsonObj → List String
  | .nil => []
  | .cons k _ tl => stripQuotes k :: tl.strippedKeys

/-- The decoded keys of an object, in order, without quote
stripping. -/
def JsonObj.keys : JsonObj → List String
  | .nil => []
  | .cons k _ tl => k :: tl.keys

/-- Spec §4.2 segment resolution on the document model: a segment that
parses as an integer (via `strconv.Atoi`) selects a zero-based array
index — negative indices never resolve; any other non-empty segment
selects the first object field whose quote-stripped decoded key equals
it; an empty segment never resolves (it is rejected by validation
before navigation). -/
def resolveSeg (d : Json) (segment : String) : Option Json :=
  if segment = "" then none
  else
    match atoi segment with
    | some idx =>
      match d with
      | .arr es => if idx < 0 then none else es.get? idx.toNat
      | _ => none
    | none =>
      match d with
      | .obj fs => fs.lookupStrip segment
      | _ => none

/-- Resolution of a whole segment sequence against a document. -/
def resolve : Json → List String → Option Json
  | d, [] => some d
  | d, seg :: rest =>
    match resolveSeg d seg with
    | none => none
    | some d2 => resolve d2 rest

/-- A serialized value is at least one token long. -/
theorem Json.toTokens_length_pos (v : Json) : 1 ≤ v.toTokens.length := by
  cases v <;> simp [Json.toTokens]

/-- The first token of a serialized value is never a container end. -/
theorem Json.toTokens_head_ne_end (v : Json) :
    ∀ t ts0, v.toTokens = t :: ts0 → t ≠ .arrEnd ∧ t ≠ .objEnd := by
  cases v <;> intro t ts0 h <;> simp [Json.toTokens] at h <;> simp [← h.1]

/-- The peeked kind at a serialized value is a value kind, never a
container end and never invalid. -/
theorem peekKind_toTokens (v : Json) (ts : List JTok) :
    peekKind (v.toTokens ++ ts) ≠ .kArrEnd ∧ peekKind (v.toTokens ++ ts) ≠ .kObjEnd ∧
      peekKind (v.toTokens ++ ts) ≠ .kInvalid := by
  cases v with
  | bool b => cases b <;> simp [Json.toTokens, peekKind, JTok.kind]
  | _ => simp [Json.toTokens, peekKind, JTok.kind]

mutual
/-- Inside an open container, skipping consumes a whole serialized
value without closing the container. -/
theorem skipAux_toTokens_val : ∀ (v : Json) (d : Nat) (rest : List JTok),
    skipAux (d + 1) (v.toTokens ++ rest) = skipAux (d + 1) rest
  | .null, _, _ => by simp [Json.toTokens, skipAux]
  | .bool b, _, _ => by simp [Json.toTokens, skipAux]
  | .int n, _, _ => by simp [Json.toTokens, skipAux]
  | .float q, _, _ => by simp [Json.toTokens, skipAux]
  | .str s, _, _ => by simp [Json.toTokens, skipAux]
  | .arr es, d, rest => by
    simp only [Json.toTokens, List.append_eq, List.cons_append, List.append_assoc,
      List.singleton_append, List.nil_append, skipAux]
    rw [skipAux_toTokens_arr es (d + 1) (.arrEnd :: rest)]
    simp [skipAux]
  | .obj fs, d, rest => by
    simp only [Json.toTokens, List.append_eq, List.cons_append, List.append_assoc,
      List.singleton_append, List.nil_append, skipAux]
    rw [skipAux_toTokens_obj fs (d + 1) (.objEnd :: rest)]
    simp [skipAux]
/-- Inside an open container, skipping runs through serialized array
elements without changing depth. -/
theorem skipAux_toTokens_arr : ∀ (es : JsonArr) (d : Nat) (rest : List JTok),
    skipAux (d + 1) (JsonArr.toTokens es ++ rest) = skipAux (d + 1) rest
  | .nil, _, _ => by simp [JsonArr.toTokens]
  | .cons v tl, d, rest => by
    rw [JsonArr.toTokens, List.append_assoc, skipAux_toTokens_val v d _,
      skipAux_toTokens_arr tl d rest]
/-- Inside an open container, skipping runs through serialized object
fields without changing depth. -/
theorem skipAux_toTokens_obj : ∀ (fs : JsonObj) (d : Nat) (rest : List JTok),
    skipAux (d + 1) (JsonObj.toTokens fs ++ rest) = skipAux (d + 1) rest
  | .nil, _, _ => by simp [JsonObj.toTokens]
  | .cons k v tl, d, rest => by
    rw [JsonObj.toTokens]
    simp only [List.cons_append, List.append_assoc, skipAux]
    rw [skipAux_toTokens_val v d _, skipAux_toTokens_obj tl d rest]
end

/-- `SkipValue` at a serialized value consumes exactly that value. -/
theorem skipValue_toTokens (v : Json) (rest : List JTok) :
    skipValue (v.toTokens ++ rest) = some rest := by
  cases v with
  | arr es =>
    simp only [skipValue, Json.toTokens, List.append_eq, List.cons_append, List.append_assoc,
      List.singleton_append, List.nil_append, skipAux]
    rw [show (0 : Nat) + 1 = 1 from rfl] at *
    rw [skipAux_toTokens_arr es 0 (.arrEnd :: rest)]
    simp [skipAux]
  | obj fs =>
    simp only [skipValue, Json.toTokens, List.append_eq, List.cons_append, List.append_assoc,
      List.singleton_append, List.nil_append, skipAux]
    rw [show (0 : Nat) + 1 = 1 from rfl] at *
    rw [skipAux_toTokens_obj fs 0 (.objEnd :: rest)]
    simp [skipAux]
  | bool b => simp [skipValue, Json.toTokens, skipAux]
  | _ => simp [skipValue, Json.toTokens, skipAux]

mutual
/-- With enough fuel, decoding at a serialized value yields exactly its
dynamic value and consumes exactly its tokens. -/
theorem decodeVal_toTokens : ∀ (v : Json) (f : Nat) (rest : List JTok),
    v.toTokens.length ≤ f →
    decodeVal f (v.toTokens ++ rest) = some (dynOfJson v, rest)
  | .null, f, rest, hf => by
    have hf1 : 1 ≤ f := by simpa [Json.toTokens] using hf
    obtain ⟨f0, rfl⟩ : ∃ f0, f = f0 + 1 := ⟨f - 1, by omega⟩
    simp [Json.toTokens, decodeVal, dynOfJson]
  | .bool b, f, rest, hf => by
    have hf1 : 1 ≤ f := by simpa [Json.toTokens] using hf
    obtain ⟨f0, rfl⟩ : ∃ f0, f = f0 + 1 := ⟨f - 1, by omega⟩
    simp [Json.toTokens, decodeVal, dynOfJson]
  | .int n, f, rest, hf => by
    have hf1 : 1 ≤ f := by simpa [Json.toTokens] using hf
    obtain ⟨f0, rfl⟩ : ∃ f0, f = f0 + 1 := ⟨f - 1, by omega⟩
    simp [Json.toTokens, decodeVal, dynOfJson]
  | .float q, f, rest, hf => by
    have hf1 : 1 ≤ f := by simpa [Json.toTokens] using hf
    obtain ⟨f0, rfl⟩ : ∃ f0, f = f0 + 1 := ⟨f - 1, by omega⟩
    simp [Json.toTokens, decodeVal, dynOfJson]
  | .str s, f, rest, hf => by
    have hf1 : 1 ≤ f := by simpa [Json.toTokens] using hf
    obtain ⟨f0, rfl⟩ : ∃ f0, f = f0 + 1 := ⟨f - 1, by omega⟩
    simp [Json.toTokens, decodeVal, dynOfJson]
  | .arr es, f, rest, hf => by
    have hf1 : es.toTokens.length + 2 ≤ f := by
      simpa [Json.toTokens] using hf
    obtain ⟨f0, rfl⟩ : ∃ f0, f = f0 + 1 := ⟨f - 1, by omega⟩
    simp only [Json.toTokens, List.append_eq, List.cons_append, List.append_assoc,
      List.singleton_append, List.nil_append, decodeVal]
    rw [decodeArr_toTokens es f0 rest (by omega)]
    simp [dynOfJson]
  | .obj fs, f, rest, hf => by
    have hf1 : fs.toTokens.length + 2 ≤ f := by
      simpa [Json.toTokens] using hf
    obtain ⟨f0, rfl⟩ : ∃ f0, f = f0 + 1 := ⟨f - 1, by omega⟩
    simp only [Json.toTokens, List.append_eq, List.cons_append, List.append_assoc,
      List.singleton_append, List.nil_append, decodeVal]
    rw [decodeObj_toTokens fs f0 rest (by omega)]
    simp [dynOfJson]
/-- With enough fuel, decoding serialized array elements up to the
array end yields their dynamic values. -/
theorem decodeArr_toTokens : ∀ (es : JsonArr) (f : Nat) (rest : List JTok),
    es.toTokens.length + 1 ≤ f →
    decodeArr f (es.toTokens ++ .arrEnd :: rest) = some (dynOfArr es, rest)
  | .nil, f, rest, hf => by
    have hf1 : 1 ≤ f := by omega
    obtain ⟨f0, rfl⟩ : ∃ f0, f = f0 + 1 := ⟨f - 1, by omega⟩
    simp [JsonArr.toTokens, decodeArr, dynOfArr]
  | .cons v tl, f, rest, hf => by
    have hlv := v.toTokens_length_pos
    have hf1 : v.toTokens.length + tl.toTokens.length + 1 ≤ f := by
      simpa [JsonArr.toTokens] using hf
    obtain ⟨f0, rfl⟩ : ∃ f0, f = f0 + 1 := ⟨f - 1, by omega⟩
    rw [JsonArr.toTokens, List.append_assoc]
    have hv := decodeVal_toTokens v f0 (tl.toTokens ++ .arrEnd :: rest) (by omega)
    have htl := decodeArr_toTokens tl f0 rest (by omega)
    cases hvt : v.toTokens with
    | nil => simp [hvt] at hlv
    | cons t ts0 =>
      have hne := Json.toTokens_head_ne_end v t ts0 hvt
      rw [hvt] at hv
      simp only [List.cons_append] at hv ⊢
      cases t with
      | arrEnd => exact absurd rfl hne.1
      | null => simp only [decodeArr]; rw [hv]; simp [htl, dynOfArr]
      | bool b => simp only [decodeArr]; rw [hv]; simp [htl, dynOfArr]
      | int n => simp only [decodeArr]; rw [hv]; simp [htl, dynOfArr]
      | float q => simp only [decodeArr]; rw [hv]; simp [htl, dynOfArr]
      | str s => simp only [decodeArr]; rw [hv]; simp [htl, dynOfArr]
      | objStart => simp only [decodeArr]; rw [hv]; simp [htl, dynOfArr]
      | objEnd => simp only [decodeArr]; rw [hv]; simp [htl, dynOfArr]
      | arrStart => simp only [decodeArr]; rw [hv]; simp [htl, dynOfArr]
/-- With enough fuel, decoding serialized object fields up to the
object end yields their dynamic values. -/
theorem decodeObj_toTokens : ∀ (fs : JsonObj) (f : Nat) (rest : List JTok),
    fs.toTokens.length + 1 ≤ f →
    decodeObj f (fs.toTokens ++ .objEnd :: rest) = some (dynOfObj fs, rest)
  | .nil, f, rest, hf => by
    have hf1 : 1 ≤ f := by omega
    obtain ⟨f0, rfl⟩ : ∃ f0, f = f0 + 1 := ⟨f - 1, by omega⟩
    simp [JsonObj.toTokens, decodeObj, dynOfObj]
  | .cons k v tl, f, rest, hf => by
    have hlv := v.toTokens_length_pos
    have hf1 : v.toTokens.length + tl.toTokens.length + 2 ≤ f := by
      simpa [JsonObj.toTokens] using hf
    obtain ⟨f0, rfl⟩ : ∃ f0, f = f0 + 1 := ⟨f - 1, by omega⟩
    rw [JsonObj.toTokens]
    simp only [List.append_eq, List.cons_append, List.append_assoc, List.nil_append, decodeObj]
    rw [decodeVal_toTokens v f0 (tl.toTokens ++ .objEnd :: rest) (by omega)]
    simp [decodeObj_toTokens tl f0 rest (by omega), dynOfObj]
end

/-- `UnmarshalDecode` at a serialized value returns exactly its dynamic
value. -/
theorem decodeValue_toTokens (v : Json) (rest : List JTok) :
    decodeValue (v.toTokens ++ rest) = some (dynOfJson v, rest) :=
  decodeVal_toTokens v (v.toTokens ++ rest).length rest (by simp)

/-- An index below the length has an element. -/
theorem JsonArr.get_eq_some_of_lt : ∀ (es : JsonArr) (n : Nat), n < es.length →
    ∃ v, es.get? n = some v
  | .nil, n, h => by simp [JsonArr.length] at h
  | .cons hd _, 0, _ => ⟨hd, rfl⟩
  | .cons _ tl, n + 1, h => by
    have h2 : n < tl.length := by simp [JsonArr.length] at h; omega
    obtain ⟨v, hv⟩ := JsonArr.get_eq_some_of_lt tl n h2
    exact ⟨v, by simpa [JsonArr.get?] using hv⟩

/-- An existing element bounds the index by the length. -/
theorem JsonArr.lt_length_of_get : ∀ (es : JsonArr) (n : Nat) (v : Json),
    es.get? n = some v → n < es.length
  | .nil, n, v, h => by simp [JsonArr.get?] at h
  | .cons _ _, 0, _, _ => by simp [JsonArr.length]
  | .cons _ tl, n + 1, v, h => by
    have := JsonArr.lt_length_of_get tl n v (by simpa [JsonArr.get?] using h)
    simp [JsonArr.length]; omega

/-- Dropping up to an existing element exposes it at the head. -/
theorem JsonArr.drop_eq_cons : ∀ (es : JsonArr) (n : Nat) (v : Json),
    es.get? n = some v → ∃ tl, es.drop n = .cons v tl
  | .nil, n, v, h => by simp [JsonArr.get?] at h
  | .cons hd tl, 0, v, h => by
    simp [JsonArr.get?] at h
    exact ⟨tl, by simp [JsonArr.drop, h]⟩
  | .cons _ tl, n + 1, v, h => by
    obtain ⟨tl2, htl2⟩ := JsonArr.drop_eq_cons tl n v (by simpa [JsonArr.get?] using h)
    exact ⟨tl2, by simpa [JsonArr.drop] using htl2⟩

/-- Dropping every element leaves the empty array. -/
theorem JsonArr.drop_self : ∀ (es : JsonArr), es.drop es.length = .nil
  | .nil => rfl
  | .cons hd tl => by simpa [JsonArr.length, JsonArr.drop] using JsonArr.drop_self tl

/-- The skipping loop on a serialized array: advancing the running index
by `i ≤ length` elements skips exactly the first `i` serialized
elements. -/
theorem navArrayLoop_le : ∀ (i : Nat) (es : JsonArr) (s : extractState) (c : Nat)
    (rest : List JTok), i ≤ es.length →
    navArrayLoop s ((c + i : Nat) : Int) c (es.toTokens ++ .arrEnd :: rest) =
      .ok (c + i, (es.drop i).toTokens ++ .arrEnd :: rest) := by
  intro i
  induction i with
  | zero =>
    intro es s c rest hle
    rw [navArrayLoop_eq]
    rw [if_neg (by push_cast; omega)]
    simp [JsonArr.drop]
  | succ i2 ih =>
    intro es s c rest hle
    cases es with
    | nil => simp [JsonArr.length] at hle
    | cons hd tl =>
      have hle2 : i2 ≤ tl.length := by simp [JsonArr.length] at hle; omega
      rw [navArrayLoop_eq]
      rw [if_pos (by push_cast; omega)]
      rw [JsonArr.toTokens, List.append_assoc]
      rw [if_neg (peekKind_toTokens hd (tl.toTokens ++ .arrEnd :: rest)).1]
      rw [skipValue_toTokens hd (tl.toTokens ++ .arrEnd :: rest)]
      have harith : (((c + (i2 + 1) : Nat)) : Int) = (((c + 1) + i2 : Nat) : Int) := by
        push_cast; omega
      rw [harith]
      have hloop := ih tl s (c + 1) rest hle2
      simp only [hloop]
      have hc : c + 1 + i2 = c + (i2 + 1) := by omega
      rw [hc]
      simp [JsonArr.drop]

/-- The skipping loop on a serialized array whose length is below the
target: the array end is reached early and `IndexOutOfRange` reports
the elements actually skipped. -/
theorem navArrayLoop_oob : ∀ (es : JsonArr) (s : extractState) (t : Int) (c : Nat)
    (rest : List JTok), ((c + es.length : Nat) : Int) < t →
    navArrayLoop s t c (es.toTokens ++ .arrEnd :: rest) =
      .error (s.enrichError [.jsonPathTraversalFailed, .jsonIndexOutOfRange]
        [.kv "target_index" (.int t),
         .kv "array_length" (.int ((c + es.length : Nat) : Int))])
  | .nil, s, t, c, rest, hlt => by
    rw [navArrayLoop_eq]
    rw [if_pos (by simp [JsonArr.length] at hlt; omega)]
    simp only [JsonArr.toTokens, List.nil_append]
    rw [if_pos (by simp [peekKind, JTok.kind])]
    simp [JsonArr.length]
  | .cons hd tl, s, t, c, rest, hlt => by
    have hlt2 : (((c + 1) + tl.length : Nat) : Int) < t := by
      simp [JsonArr.length] at hlt ⊢; push_cast at hlt ⊢; omega
    rw [navArrayLoop_eq]
    rw [if_pos (by simp [JsonArr.length] at hlt; push_cast at hlt ⊢; omega)]
    rw [JsonArr.toTokens, List.append_assoc]
    rw [if_neg (peekKind_toTokens hd (tl.toTokens ++ .arrEnd :: rest)).1]
    rw [skipValue_toTokens hd (tl.toTokens ++ .arrEnd :: rest)]
    have hloop := navArrayLoop_oob tl s t (c + 1) rest hlt2
    simp only [hloop]
    have hc : c + 1 + tl.length = c + (tl.length + 1) := by omega
    simp [JsonArr.length, hc]

/-- A negative target index fails immediately with `IndexOutOfRange`,
whatever the cursor is positioned at. -/
theorem navigateArrayIndex_neg (s : extractState) (i : Int) (ts : List JTok) (hi : i < 0) :
    navigateArrayIndex s i ts =
      .error (s.enrichError [.jsonPathTraversalFailed, .jsonIndexOutOfRange]
        [.kv "target_index" (.int i)]) := by
  simp [navigateArrayIndex, hi]

/-- Full characterization of index navigation at a serialized array:
negative indices fail immediately, in-range indices position the cursor
at the selected element having skipped exactly the preceding elements,
and out-of-range indices (length included) fail with `IndexOutOfRange`
reporting the element count. -/
theorem navigateArrayIndex_arr (s : extractState) (es : JsonArr) (i : Int)
    (rest : List JTok) :
    navigateArrayIndex s i (Json.toTokens (.arr es) ++ rest) =
      if i < 0 then
        .error (s.enrichError [.jsonPathTraversalFailed, .jsonIndexOutOfRange]
          [.kv "target_index" (.int i)])
      else if i.toNat < es.length then
        .ok ((es.drop i.toNat).toTokens ++ .arrEnd :: rest)
      else
        .error (s.enrichError [.jsonPathTraversalFailed, .jsonIndexOutOfRange]
          [.kv "target_index" (.int i), .kv "array_length" (.int (es.length : Int))]) := by
  by_cases hi : i < 0
  · rw [if_pos hi]
    exact navigateArrayIndex_neg s i _ hi
  · rw [if_neg hi]
    have hpk : peekKind (Json.toTokens (.arr es) ++ rest) = .kArrStart := by
      simp [Json.toTokens, peekKind, JTok.kind]
    simp only [navigateArrayIndex, hpk]
    rw [if_neg hi]
    rw [if_neg (by simp)]
    simp only [Json.toTokens, List.append_eq, List.cons_append, List.append_assoc,
      List.singleton_append, List.nil_append, readToken]
    by_cases hlt : i.toNat < es.length
    · rw [if_pos hlt]
      have hi2 : ((0 + i.toNat : Nat) : Int) = i := by push_cast; omega
      have hloop := navArrayLoop_le i.toNat es s 0 rest (le_of_lt hlt)
      rw [hi2] at hloop
      simp only [hloop]
      obtain ⟨v, hv⟩ := JsonArr.get_eq_some_of_lt es i.toNat hlt
      obtain ⟨tl2, htl2⟩ := JsonArr.drop_eq_cons es i.toNat v hv
      rw [htl2, JsonArr.toTokens, List.append_assoc]
      rw [if_neg (peekKind_toTokens v (tl2.toTokens ++ .arrEnd :: rest)).1]
    · rw [if_neg hlt]
      by_cases heq : i.toNat = es.length
      · have hi2 : ((0 + i.toNat : Nat) : Int) = i := by push_cast; omega
        have hloop := navArrayLoop_le i.toNat es s 0 rest (by omega)
        rw [hi2] at hloop
        simp only [hloop]
        rw [heq, JsonArr.drop_self]
        simp only [JsonArr.toTokens, List.nil_append]
        rw [if_pos (by simp [peekKind, JTok.kind])]
        have : ((0 + es.length : Nat) : Int) = (es.length : Int) := by push_cast; omega
        simp [heq, this]
      · have hgt : ((0 + es.length : Nat) : Int) < i := by push_cast at *; omega
        have hloop := navArrayLoop_oob es s i 0 rest hgt
        simp only [hloop]
        have : ((0 + es.length : Nat) : Int) = (es.length : Int) := by push_cast; omega
        simp [this]

/-- Whether a value is an object. -/
def Json.isObj : Json → Bool
  | .obj _ => true
  | _ => false

/-- The key-search loop at serialized object fields containing a
(first, quote-stripped) match: it stops with the cursor at the matching
field's value, which is not consumed. -/
theorem navObjectLoop_found : ∀ (fs : JsonObj) (target : String) (v : Json) (tl : JsonObj),
    fs.findSplit target = some (v, tl) →
    ∀ (s : extractState) (acc : List String) (rest : List JTok),
    navObjectLoop s target acc (fs.toTokens ++ .objEnd :: rest) =
      .ok (v.toTokens ++ (tl.toTokens ++ .objEnd :: rest))
  | .nil, target, v, tl, h => by simp [JsonObj.findSplit] at h
  | .cons k v0 tl0, target, v, tl, h => by
    intro s acc rest
    rw [JsonObj.toTokens]
    simp only [List.cons_append, List.append_assoc]
    rw [navObjectLoop_eq]
    rw [if_pos (by simp [peekKind, JTok.kind])]
    simp only [readToken, JTok.string]
    by_cases hm : stripQuotes k == target
    · rw [if_pos hm]
      rw [JsonObj.findSplit] at h
      rw [if_pos hm] at h
      simp only [Option.some.injEq, Prod.mk.injEq] at h
      rw [h.1, h.2]
    · rw [if_neg hm]
      rw [skipValue_toTokens v0 (tl0.toTokens ++ .objEnd :: rest)]
      rw [JsonObj.findSplit] at h
      rw [if_neg hm] at h
      exact navObjectLoop_found tl0 target v tl h s (acc ++ [stripQuotes k]) rest

/-- The key-search loop at serialized object fields with no
(quote-stripped) match: every field is skipped, every stripped key
recorded, and `PathSegmentNotFound` reports the accumulated keys. -/
theorem navObjectLoop_notfound : ∀ (fs : JsonObj) (target : String),
    fs.findSplit target = none →
    ∀ (s : extractState) (acc : List String) (rest : List JTok),
    navObjectLoop s target acc (fs.toTokens ++ .objEnd :: rest) =
      .error (s.enrichError [.jsonPathTraversalFailed, .jsonPathSegmentNotFound]
        [.kv "missing_key" (.str target),
         .kv "available_keys" (.strs (acc ++ fs.strippedKeys))])
  | .nil, target, h => by
    intro s acc rest
    simp only [JsonObj.toTokens, List.nil_append]
    rw [navObjectLoop_eq]
    rw [if_neg (by simp [peekKind, JTok.kind])]
    simp [JsonObj.strippedKeys]
  | .cons k v0 tl0, target, h => by
    intro s acc rest
    rw [JsonObj.findSplit] at h
    by_cases hm : stripQuotes k == target
    · rw [if_pos hm] at h; exact absurd h (by simp)
    · rw [if_neg hm] at h
      rw [JsonObj.toTokens]
      simp only [List.cons_append, List.append_assoc]
      rw [navObjectLoop_eq]
      rw [if_pos (by simp [peekKind, JTok.kind])]
      simp only [readToken, JTok.string]
      rw [if_neg hm]
      rw [skipValue_toTokens v0 (tl0.toTokens ++ .objEnd :: rest)]
      have hkeys : (acc ++ [stripQuotes k]) ++ tl0.strippedKeys
          = acc ++ (JsonObj.cons k v0 tl0).strippedKeys := by
        simp [JsonObj.strippedKeys]
      have hrec := navObjectLoop_notfound tl0 target h s (acc ++ [stripQuotes k]) rest
      rw [hkeys] at hrec
      exact hrec

/-- Full characterization of key navigation at a serialized object:
the cursor stops, unconsuming, at the value of the first field whose
quote-stripped key equals the target, and fails with
`PathSegmentNotFound` listing all (quote-stripped) keys when there is
no such field. -/
theorem navigateObjectKey_obj (s : extractState) (fs : JsonObj) (target : String)
    (rest : List JTok) :
    navigateObjectKey s target (Json.toTokens (.obj fs) ++ rest) =
      match fs.findSplit target with
      | some (v, tl) => .ok (v.toTokens ++ (tl.toTokens ++ .objEnd :: rest))
      | none =>
        .error (s.enrichError [.jsonPathTraversalFailed, .jsonPathSegmentNotFound]
          [.kv "missing_key" (.str target),
           .kv "available_keys" (.strs fs.strippedKeys)]) := by
  have hpk : peekKind (Json.toTokens (.obj fs) ++ rest) = .kObjStart := by
    simp [Json.toTokens, peekKind, JTok.kind]
  simp only [navigateObjectKey, hpk]
  rw [if_neg (by simp)]
  simp only [Json.toTokens, List.append_eq, List.cons_append, List.append_assoc,
    List.singleton_append, List.nil_append, readToken]
  cases hf : fs.findSplit target with
  | some p =>
    obtain ⟨v, tl⟩ := p
    simp only [navObjectLoop_found fs target v tl hf s [] rest]
  | none =>
    rw [navObjectLoop_notfound fs target hf s [] rest]
    simp

/-- Key navigation at any non-object value fails with
`ExpectedObjectAtSegment`. -/
theorem navigateObjectKey_nonobj (s : extractState) (target : String) (d : Json)
    (rest : List JTok) (hno : d.isObj = false) :
    navigateObjectKey s target (d.toTokens ++ rest) =
      .error (s.enrichError [.jsonPathTraversalFailed, .jsonPathExpectedObjectAtSegment]
        [.kv "expected_type" (.str "object"),
         .kv "actual_type" (.str (peekKind (d.toTokens ++ rest)).name)]) := by
  cases d with
  | obj fs => simp [Json.isObj] at hno
  | bool b => cases b <;> simp [navigateObjectKey, Json.toTokens, peekKind, JTok.kind]
  | _ => simp [navigateObjectKey, Json.toTokens, peekKind, JTok.kind]

/-- Segment-loop correctness: when the remaining segments resolve to a
value, navigation over the serialized document succeeds and leaves the
cursor exactly at that value's serialization. -/
theorem navSegments_resolve : ∀ (segs : List String) (d v : Json),
    resolve d segs = some v →
    ∀ (s : extractState) (i : Nat) (rest : List JTok),
    ∃ s2 rest2, navSegments s i segs (d.toTokens ++ rest) = .ok (s2, v.toTokens ++ rest2) := by
  intro segs
  induction segs with
  | nil =>
    intro d v h s i rest
    simp only [resolve, Option.some.injEq] at h
    exact ⟨s, rest, by rw [h]; rfl⟩
  | cons seg segs2 ih =>
    intro d v h s i rest
    rw [resolve] at h
    cases hseg : resolveSeg d seg with
    | none => rw [hseg] at h; simp at h
    | some d2 =>
      rw [hseg] at h
      simp only [] at h
      have hne : ¬(seg = "") := by
        intro he; rw [he] at hseg; rw [resolveSeg.eq_def] at hseg; simp at hseg
      simp only [navSegments]
      rw [if_neg hne]
      rw [resolveSeg.eq_def, if_neg hne] at hseg
      cases hat : atoi seg with
      | some idx =>
        rw [hat] at hseg
        cases d with
        | arr es =>
          simp only [] at hseg
          by_cases hneg : idx < 0
          · rw [if_pos hneg] at hseg; simp at hseg
          · rw [if_neg hneg] at hseg
            have hlt := JsonArr.lt_length_of_get es idx.toNat d2 hseg
            have hnav := navigateArrayIndex_arr { s with position := i } es idx rest
            rw [if_neg hneg, if_pos hlt] at hnav
            obtain ⟨tl2, htl2⟩ := JsonArr.drop_eq_cons es idx.toNat d2 hseg
            rw [htl2, JsonArr.toTokens, List.append_assoc] at hnav
            simp only [navigateToSegment, hat, hnav]
            exact ih d2 v h _ (i + 1) (tl2.toTokens ++ .arrEnd :: rest)
        | _ => simp at hseg
      | none =>
        rw [hat] at hseg
        cases d with
        | obj fs =>
          simp only [JsonObj.lookupStrip, Option.map_eq_some'] at hseg
          obtain ⟨⟨v2, tl⟩, hfind, hv2⟩ := hseg
          have hv2' : v2 = d2 := hv2
          subst hv2'
          have hnav := navigateObjectKey_obj { s with position := i } fs seg rest
          rw [hfind] at hnav
          simp only [navigateToSegment, hat, hnav]
          exact ih v2 v h _ (i + 1) (tl.toTokens ++ .objEnd :: rest)
        | _ => simp at hseg

/-- Single-selector correctness: a selector whose segments resolve to a
value extracts exactly that value's dynamic form. -/
theorem extractSingleValue_resolve (d : Json) (raw : String) (selector : String) (v : Json)
    (h : resolve d (splitDot selector) = some v) :
    extractSingleValue ⟨raw, d.toTokens⟩ selector = .ok (dynOfJson v) := by
  have hsel : ¬(selector.length = 0) := by
    intro hlen
    have hempty : selector = "" := by
      cases selector with
      | mk data =>
        cases data with
        | nil => rfl
        | cons a l => simp [String.length] at hlen
    rw [hempty] at h
    have hsplit : splitDot "" = [""] := rfl
    rw [hsplit] at h
    rw [resolve, resolveSeg.eq_def] at h
    simp at h
  obtain ⟨s2, rest2, hnav⟩ :=
    navSegments_resolve (splitDot selector) d v h (newExtractState selector raw) 0 []
  rw [List.append_nil] at hnav
  rw [extractSingleValue, if_neg hsel]
  simp only [newExtractState] at hnav ⊢
  rw [hnav]
  simp only []
  rw [decodeValue_toTokens v rest2]

/-- Whether a selector extracts successfully from a document. -/
def selOk (doc : RawDoc) (sel : Selector) : Bool :=
  match extractSingleValue doc sel with
  | .ok _ => true
  | .error _ => false

/-- The error a selector's extraction produces, when it fails. -/
def selErr (doc : RawDoc) (sel : Selector) : Option JErr :=
  match extractSingleValue doc sel with
  | .ok _ => none
  | .error e => some e

/-- Number of entries of the values map under a key. -/
def entryCount (m : ValuesMap) (k : Selector) : Nat :=
  (m.filter fun p => p.1 == k).length

/-- Overwriting a key in place changes no key of the map. -/
theorem mapContains_map_overwrite (m : ValuesMap) (k : Selector) (v : DynVal)
    (x : Selector) :
    mapContains (m.map fun p => if p.1 == k then (k, v) else p) x = mapContains m x := by
  induction m with
  | nil => rfl
  | cons p m2 ih =>
    simp only [mapContains, List.map_cons, List.any_cons] at ih ⊢
    have hhead : (((if p.1 == k then (k, v) else p) : Selector × DynVal).1 == x)
        = (p.1 == x) := by
      by_cases h : (p.1 == k) = true
      · have h2 : p.1 = k := by simpa using h
        rw [if_pos h, h2]
      · rw [if_neg h]
    rw [hhead, ih]

/-- Key membership after map assignment. -/
theorem mapContains_mapInsert (m : ValuesMap) (k : Selector) (v : DynVal) (x : Selector) :
    mapContains (mapInsert m k v) x = (mapContains m x || k == x) := by
  rw [mapInsert]
  by_cases hc : mapContains m k = true
  · rw [if_pos hc, mapContains_map_overwrite]
    by_cases hkx : (k == x) = true
    · have hkx2 : k = x := by simpa using hkx
      rw [← hkx2, hc]
      simp
    · simp [hkx]
  · rw [if_neg hc]
    simp [mapContains, List.any_append]

/-- Key membership of the values map built by the extraction loop: a key
is present iff it was present before or is a successfully extracting
selector of the list. -/
theorem extractLoop_contains (doc : RawDoc) : ∀ (sels : List Selector) (m : ValuesMap)
    (errs : List JErr) (x : Selector),
    mapContains (extractLoop doc sels m errs).1 x =
      (mapContains m x || (sels.contains x && selOk doc x)) := by
  intro sels
  induction sels with
  | nil =>
    intro m errs x
    simp [extractLoop]
  | cons sel rest ih =>
    intro m errs x
    by_cases hsx : (x == sel) = true
    · have hx2 : x = sel := by simpa using hsx
      subst hx2
      cases hx : extractSingleValue doc x with
      | error e =>
        simp only [extractLoop, hx]
        rw [ih]
        simp [selOk, hx, List.contains_cons]
      | ok v =>
        simp only [extractLoop, hx]
        rw [ih, mapContains_mapInsert]
        simp [selOk, hx, List.contains_cons]
    · have hx2 : ¬(x = sel) := by simpa using hsx
      have hsx3 : (x == sel) = false := by simpa using hsx
      have hcons : (sel :: rest).contains x = rest.contains x := by
        rw [List.contains_cons, hsx3, Bool.false_or]
      cases hx : extractSingleValue doc sel with
      | error e =>
        simp only [extractLoop, hx]
        rw [ih, hcons]
      | ok v =>
        simp only [extractLoop, hx]
        rw [ih, mapContains_mapInsert, hcons]
        have : (sel == x) = false := by
          simp
          intro hse
          exact absurd hse.symm hx2
        rw [this]
        simp

/-- The errors collected by the extraction loop are exactly the errors
of the failing selectors, in input order. -/
theorem extractLoop_errs (doc : RawDoc) : ∀ (sels : List Selector) (m : ValuesMap)
    (errs : List JErr),
    (extractLoop doc sels m errs).2 = errs ++ sels.filterMap (selErr doc) := by
  intro sels
  induction sels with
  | nil =>
    intro m errs
    simp [extractLoop]
  | cons sel rest ih =>
    intro m errs
    cases hx : extractSingleValue doc sel with
    | error e =>
      simp only [extractLoop, hx]
      rw [ih]
      simp [selErr, hx, List.filterMap_cons]
    | ok v =>
      simp only [extractLoop, hx]
      rw [ih]
      simp [selErr, hx, List.filterMap_cons]

/-- Overwriting a key in place does not change how many entries any key
has. -/
theorem entryCount_map_overwrite (m : ValuesMap) (k : Selector) (v : DynVal)
    (x : Selector) :
    entryCount (m.map fun p => if p.1 == k then (k, v) else p) x = entryCount m x := by
  induction m with
  | nil => rfl
  | cons p m2 ih =>
    simp only [entryCount] at ih ⊢
    rw [List.map_cons, List.filter_cons, List.filter_cons]
    have hhead : (((if p.1 == k then (k, v) else p) : Selector × DynVal).1 == x)
        = (p.1 == x) := by
      by_cases h : (p.1 == k) = true
      · have h2 : p.1 = k := by simpa using h
        rw [if_pos h, h2]
      · rw [if_neg h]
    rw [hhead]
    by_cases hpx : (p.1 == x) = true
    · rw [if_pos hpx, if_pos hpx]
      simp only [List.length_cons]
      rw [ih]
    · rw [if_neg hpx, if_neg hpx]
      exact ih

/-- Entry count after map assignment: unchanged on other keys and on
overwrite, one more on a fresh key. -/
theorem entryCount_mapInsert (m : ValuesMap) (k : Selector) (v : DynVal) (x : Selector) :
    entryCount (mapInsert m k v) x =
      entryCount m x + (if (k == x) && !(mapContains m k) then 1 else 0) := by
  rw [mapInsert]
  by_cases hc : mapContains m k = true
  · rw [if_pos hc, entryCount_map_overwrite, hc]
    simp
  · rw [if_neg hc]
    have hc2 : mapContains m k = false := by simpa using hc
    rw [hc2]
    simp only [entryCount, List.filter_append, List.length_append]
    by_cases hkx : (k == x) = true
    · simp [hkx]
    · have : (k == x) = false := by simpa using hkx
      simp [this]

/-- Each key of the loop's values map has at most one entry: exactly
one when present, none otherwise. -/
theorem extractLoop_entryCount (doc : RawDoc) : ∀ (sels : List Selector) (m : ValuesMap)
    (errs : List JErr) (x : Selector),
    entryCount m x = (if mapContains m x then 1 else 0) →
    entryCount (extractLoop doc sels m errs).1 x =
      (if mapContains (extractLoop doc sels m errs).1 x then 1 else 0) := by
  intro sels
  induction sels with
  | nil =>
    intro m errs x hm
    simpa [extractLoop] using hm
  | cons sel rest ih =>
    intro m errs x hm
    cases hx : extractSingleValue doc sel with
    | error e =>
      simp only [extractLoop, hx]
      exact ih m (errs ++ [e]) x hm
    | ok v =>
      simp only [extractLoop, hx]
      refine ih (mapInsert m sel v) errs x ?_
      rw [entryCount_mapInsert, mapContains_mapInsert, hm]
      by_cases hsx : (sel == x) = true
      · have hsx2 : sel = x := by simpa using hsx
        subst hsx2
        by_cases hcx : mapContains m sel = true
        · simp [hcx]
        · have hcx2 : mapContains m sel = false := by simpa using hcx
          simp [hcx2]
      · have hsx2 : (sel == x) = false := by simpa using hsx
        simp [hsx2]

/-- Counting in a filtered list: all occurrences survive when the
element passes the filter, none otherwise. -/
theorem count_filter_eq (p : Selector → Bool) (sels : List Selector) (x : Selector) :
    (sels.filter p).count x = (if p x then sels.count x else 0) := by
  induction sels with
  | nil => simp
  | cons a rest ih =>
    rw [List.filter_cons]
    by_cases hax : a = x
    · subst hax
      by_cases hpa : p a = true
      · rw [if_pos hpa, List.count_cons_self, ih, if_pos hpa, List.count_cons_self,
          if_pos hpa]
      · rw [if_neg hpa, ih, if_neg hpa, if_neg hpa]
    · have hxa : x ≠ a := fun he => hax he.symm
      by_cases hpa : p a = true
      · rw [if_pos hpa, List.count_cons_of_ne hxa, ih, List.count_cons_of_ne hxa]
      · rw [if_neg hpa, ih, List.count_cons_of_ne hxa]

/-- Whether a single-value result carries a given sentinel
(`errors.Is` on the error side, false on success). -/
def resErrIs (r : Except JErr DynVal) (t : Sent) : Bool :=
  match r with
  | .error e => errIs e t
  | .ok _ => false

/-- Whether a single-value result is a success. -/
def resIsOk (r : Except JErr DynVal) : Bool :=
  match r with
  | .ok _ => true
  | .error _ => false

/-- `errors.Is` through an optional error: false for nil. -/
def optErrIs : Option JErr → Sent → Bool
  | none, _ => false
  | some e, t => errIs e t

/-- Key membership through an optional (possibly nil) values map. -/
def mapContainsOpt : Option ValuesMap → Selector → Bool
  | none, _ => false
  | some m, x => mapContains m x

/-- The batch orchestrator past input validation, componentwise. -/
theorem ExtractValuesFromReader_eq (doc : RawDoc) (sels : List Selector)
    (hne : sels ≠ []) :
    ExtractValuesFromReader (some doc) sels =
      (some (extractLoop doc sels [] []).1,
       sels.filter (fun s => !(mapContains (extractLoop doc sels [] []).1 s)),
       if (extractLoop doc sels [] []).2.length = 0 then none
       else some (CombineErrs (extractLoop doc sels [] []).2)) := by
  rw [ExtractValuesFromReader]
  rw [if_neg (by simpa using hne)]

/-- The batch orchestrator on one successfully extracting selector. -/
theorem batch_single_ok (doc : RawDoc) (sel : Selector) (v : DynVal)
    (h : extractSingleValue doc sel = .ok v) :
    ExtractValuesFromReader (some doc) [sel] = (some [(sel, v)], [], none) := by
  rw [ExtractValuesFromReader_eq doc [sel] (by simp)]
  have hl : extractLoop doc [sel] [] [] = ([(sel, v)], []) := by
    simp only [extractLoop, h]
    simp [mapInsert, mapContains]
  rw [hl]
  simp [mapContains]

/-- The batch orchestrator on one failing selector. -/
theorem batch_single_err (doc : RawDoc) (sel : Selector) (e : JErr)
    (h : extractSingleValue doc sel = .error e) :
    ExtractValuesFromReader (some doc) [sel] = (some [], [sel], some (CombineErrs [e])) := by
  rw [ExtractValuesFromReader_eq doc [sel] (by simp)]
  have hl : extractLoop doc [sel] [] [] = ([], [e]) := by
    simp only [extractLoop, h]
    rfl
  rw [hl]
  simp [mapContains]

/-- Splitting a selector always yields at least one segment. -/
theorem splitDotAux_ne_nil : ∀ (cs acc : List Char), splitDotAux cs acc ≠ [] := by
  intro cs
  induction cs with
  | nil => intro acc; simp [splitDotAux]
  | cons c rest ih =>
    intro acc
    rw [splitDotAux]
    by_cases hc : c = '.'
    · rw [if_pos hc]; simp
    · rw [if_neg hc]; exact ih (c :: acc)

/-- A selector's segment list is never empty. -/
theorem splitDot_ne_nil (s : String) : splitDot s ≠ [] :=
  splitDotAux_ne_nil s.data []

/-- No error of a list carries the sentinel: neither does their
disjunction. -/
theorem errsAny_eq_false : ∀ (errs : List JErr) (t : Sent),
    (∀ e ∈ errs, errIs e t = false) → errsAny errs t = false := by
  intro errs
  induction errs with
  | nil => intro t h; rfl
  | cons e es ih =>
    intro t h
    rw [errsAny]
    rw [h e (by simp), ih t (fun e2 he2 => h e2 (by simp [he2]))]
    rfl

/-- Key membership distributes over list append. -/
theorem contains_append_sent (a b : List Sent) (t : Sent) :
    (a ++ b).contains t = (a.contains t || b.contains t) := by
  induction a with
  | nil => simp
  | cons x a2 ih =>
    rw [List.cons_append, List.contains_cons, List.contains_cons, ih, Bool.or_assoc]

/-- Sentinel extraction over a list of pure sentinels. -/
theorem filterMap_sentOf_map_sent (l : List Sent) :
    (l.map ErrPart.sent).filterMap ErrPart.sentOf = l := by
  induction l with
  | nil => rfl
  | cons a l2 ih => simp [List.filterMap_cons, ErrPart.sentOf, ih]

/-- Cause extraction over a list of pure sentinels. -/
theorem filterMap_causeOf_map_sent (l : List Sent) :
    (l.map ErrPart.sent).filterMap ErrPart.causeOf = [] := by
  induction l with
  | nil => rfl
  | cons a l2 ih => simp [List.filterMap_cons, ErrPart.causeOf, ih]

/-- `errors.Is` through an enriched error: the session context adds
key/value pairs only, so a sentinel is found exactly among the leading
sentinels or the extra parts. -/
theorem errIs_enrichError (s : extractState) (sents : List Sent) (extra : List ErrPart)
    (t : Sent) :
    errIs (s.enrichError sents extra) t = (sents.contains t || errIs (NewErr extra) t) := by
  rw [extractState.enrichError, NewErr, NewErr]
  rw [errIs, errIs]
  by_cases h1 : s.position < s.segments.length <;>
    by_cases h2 : 0 < s.pathProgress.length <;>
      simp only [h1, h2, if_true, if_false, List.filterMap_append, List.filterMap_cons,
        List.filterMap_nil, ErrPart.sentOf, ErrPart.causeOf, filterMap_sentOf_map_sent,
        filterMap_causeOf_map_sent, List.nil_append, List.append_nil, contains_append_sent,
        Bool.or_assoc, errsAny]

/-- The segment loop splits over list append: run the first segments,
then continue from the reached state with the position advanced. -/
theorem navSegments_append : ∀ (pre : List String) (s : extractState) (i : Nat)
    (post : List String) (ts : List JTok),
    navSegments s i (pre ++ post) ts =
      match navSegments s i pre ts with
      | .error e => .error e
      | .ok (s2, ts2) => navSegments s2 (i + pre.length) post ts2 := by
  intro pre
  induction pre with
  | nil =>
    intro s i post ts
    simp [navSegments]
  | cons seg pre2 ih =>
    intro s i post ts
    rw [List.cons_append]
    simp only [navSegments]
    by_cases h0 : seg = ""
    · rw [if_pos h0, if_pos h0]
    · rw [if_neg h0, if_neg h0]
      cases hnav : navigateToSegment { s with position := i } seg ts with
      | error e => rfl
      | ok ts2 =>
        simp only []
        rw [ih]
        cases hnav2 : navSegments
            { s with position := i, pathProgress := s.pathProgress ++ [seg] }
            (i + 1) pre2 ts2 with
        | error e => simp [List.length_cons]
        | ok p =>
          obtain ⟨s2, ts2b⟩ := p
          simp only [List.length_cons]
          have harith : i + 1 + pre2.length = i + (pre2.length + 1) := by omega
          rw [harith]

/-- Against an empty token stream, every selector fails, and never with
`BodyCannotBeEmpty`. -/
theorem extractSingleValue_emptyToks (doc : RawDoc) (hdoc : doc.toks = [])
    (sel : Selector) :
    ∃ e, extractSingleValue doc sel = .error e ∧ errIs e .jsonBodyCannotBeEmpty = false := by
  by_cases hsel : sel.length = 0
  · refine ⟨NewErr [.sent .jsonPathTraversalFailed, .sent .jsonValueSelectorCannotBeEmpty],
      ?_, ?_⟩
    · rw [extractSingleValue, if_pos hsel]
    · rfl
  · rw [extractSingleValue, if_neg hsel, hdoc]
    obtain ⟨seg0, rest, hsegs⟩ : ∃ a l, splitDot sel = a :: l := by
      cases hs : splitDot sel with
      | nil => exact absurd hs (splitDot_ne_nil sel)
      | cons a l => exact ⟨a, l, rfl⟩
    simp only [newExtractState]
    rw [hsegs]
    simp only [navSegments]
    by_cases h0 : seg0 = ""
    · rw [if_pos h0]
      refine ⟨_, rfl, ?_⟩
      rw [errIs_enrichError]
      rfl
    · rw [if_neg h0]
      cases hat : atoi seg0 with
      | some idx =>
        simp only [navigateToSegment, hat]
        by_cases hneg : idx < 0
        · rw [navigateArrayIndex_neg _ idx [] hneg]
          refine ⟨_, rfl, ?_⟩
          rw [errIs_enrichError]
          rfl
        · have hnav : ∀ s1 : extractState, navigateArrayIndex s1 idx [] =
              .error (s1.enrichError
                [.jsonPathTraversalFailed, .jsonPathExpectedArrayAtSegment]
                [.kv "expected_type" (.str "array"),
                 .kv "actual_type" (.str (peekKind ([] : List JTok)).name)]) := by
            intro s1
            simp only [navigateArrayIndex]
            rw [if_neg hneg]
            rw [if_pos (by simp [peekKind])]
          rw [hnav]
          refine ⟨_, rfl, ?_⟩
          rw [errIs_enrichError]
          rfl
      | none =>
        simp only [navigateToSegment, hat]
        have hnav : ∀ s1 : extractState, navigateObjectKey s1 seg0 [] =
            .error (s1.enrichError
              [.jsonPathTraversalFailed, .jsonPathExpectedObjectAtSegment]
              [.kv "expected_type" (.str "object"),
               .kv "actual_type" (.str (peekKind ([] : List JTok)).name)]) := by
          intro s1
          simp only [navigateObjectKey]
          rw [if_pos (by simp [peekKind])]
        rw [hnav]
        refine ⟨_, rfl, ?_⟩
        rw [errIs_enrichError]
        rfl

/-- A string of length zero is the empty string. -/
theorem string_eq_empty_of_length (s : String) (h : s.length = 0) : s = "" := by
  cases s with
  | mk data =>
    cases data with
    | nil => rfl
    | cons a l => simp [String.length] at h

/-- The single-value reader wrapper on a successful extraction. -/
theorem ExtractValueFromReader_of_ok (doc : RawDoc) (sel : Selector) (v : DynVal)
    (h : extractSingleValue doc sel = .ok v) :
    ExtractValueFromReader (some doc) sel = .ok v := by
  rw [ExtractValueFromReader, batch_single_ok doc sel v h]
  simp [mapGet, List.find?]

/-- The single-value reader wrapper on a failing extraction: the batch
error is wrapped, the `SelectorNotFound` branch is not reached. -/
theorem ExtractValueFromReader_of_err (doc : RawDoc) (sel : Selector) (e : JErr)
    (h : extractSingleValue doc sel = .error e) :
    ExtractValueFromReader (some doc) sel =
      .error (WithErr [.sent .failedToExtractValueFromJSON,
        .sent .extractingFromJSONByReader, .kv "selector" (.str sel),
        .cause (CombineErrs [e])]) := by
  rw [ExtractValueFromReader, batch_single_err doc sel e h]

/-- The single-value byte-slice wrapper on a successful extraction of a
non-empty document. -/
theorem ExtractValueFromBytes_of_ok (doc : RawDoc) (sel : Selector) (v : DynVal)
    (h : extractSingleValue doc sel = .ok v) (hraw : doc.raw.length ≠ 0) :
    ExtractValueFromBytes doc sel = .ok v := by
  rw [ExtractValueFromBytes, ExtractValuesFromBytes, if_neg hraw,
    batch_single_ok doc sel v h]
  simp [mapGet, List.find?]

/-- The single-value byte-slice wrapper on a failing extraction of a
non-empty document. -/
theorem ExtractValueFromBytes_of_err (doc : RawDoc) (sel : Selector) (e : JErr)
    (h : extractSingleValue doc sel = .error e) (hraw : doc.raw.length ≠ 0) :
    ExtractValueFromBytes doc sel =
      .error (WithErr [.sent .failedToExtractValueFromJSON,
        .sent .extractingFromJSONBytes, .kv "selector" (.str sel),
        .cause (CombineErrs [e])]) := by
  rw [ExtractValueFromBytes, ExtractValuesFromBytes, if_neg hraw,
    batch_single_err doc sel e h]

/-- The error of a single-value result (a placeholder on success). -/
def resErrOf (r : Except JErr DynVal) : JErr :=
  match r with
  | .error e => e
  | .ok _ => CombineErrs []

/-- The error of an optional error (a placeholder for nil). -/
def optErrOf : Option JErr → JErr
  | some e => e
  | none => CombineErrs []

/-- One collected error per failing selector occurrence. -/
theorem filterMap_selErr_length (doc : RawDoc) (sels : List Selector) :
    (sels.filterMap (selErr doc)).length =
      (sels.filter fun t => !(selOk doc t)).length := by
  induction sels with
  | nil => rfl
  | cons s0 rest ih =>
    rw [List.filterMap_cons, List.filter_cons]
    cases hx : extractSingleValue doc s0 with
    | ok v => simp [selErr, selOk, hx, ih]
    | error e => simp [selErr, selOk, hx, ih]

/-- The document `a..b` traversal counterexamples are run against:
`\x7b"z":1\x7d`. -/
def docZ : RawDoc :=
  ⟨"\x7b\"z\":1\x7d", (Json.obj (.cons "z" (.int 1) .nil)).toTokens⟩

/-- The empty document: empty raw bytes, empty token stream. -/
def docEmpty : RawDoc := ⟨"", []⟩

/-- The document `\x7b"n":1\x7d` of the spec's number example. -/
def docN : RawDoc :=
  ⟨"\x7b\"n\":1\x7d", (Json.obj (.cons "n" (.int 1) .nil)).toTokens⟩

/-- A concrete extraction session for navigation examples. -/
def stDemo : extractState := newExtractState "k" "x"

/-- C1: for every well-formed JSON document and every selector whose
segments resolve to an existing value `v` in that document, extraction
(`extractSingleValue`, and through it `ExtractValueFromReader` /
`ExtractValueFromBytes`) returns a dynamic value structurally equal to
`v`, with every JSON number — integer or float literal — represented as
the single (double-precision) number variant of the dynamic value
type. -/
theorem C1_extract_resolves_value (d : Json) (raw : String) (selector : String) (v : Json)
    (h : resolve d (splitDot selector) = some v) :
    extractSingleValue ⟨raw, d.toTokens⟩ selector = .ok (dynOfJson v) ∧
    ExtractValueFromReader (some ⟨raw, d.toTokens⟩) selector = .ok (dynOfJson v) ∧
    (raw.length ≠ 0 → ExtractValueFromBytes ⟨raw, d.toTokens⟩ selector = .ok (dynOfJson v)) ∧
    (∀ n : Int, dynOfJson (.int n) = .num (n : Rat)) ∧
    (∀ q : Rat, dynOfJson (.float q) = .num q) := by
  have h1 := extractSingleValue_resolve d raw selector v h
  exact ⟨h1, ExtractValueFromReader_of_ok _ _ _ h1,
    fun hraw => ExtractValueFromBytes_of_ok _ _ _ h1 hraw,
    fun n => rfl, fun q => rfl⟩

/-- C1 witness: `\x7b"n":1\x7d` with selector `n` yields the number
`1`. -/
theorem C1_witness :
    extractSingleValue docN "n" = .ok (.num 1) ∧
    ExtractValueFromBytes docN "n" = .ok (.num 1) := by
  have h := C1_extract_resolves_value (Json.obj (.cons "n" (.int 1) .nil)) docN.raw "n"
    (Json.int 1) rfl
  exact ⟨h.1, h.2.2.1 (by decide)⟩

/-- C2: for every document and every selector list accepted by input
validation, the batch operation returns a (non-nil) values map and a
not-found list such that every input selector is in exactly one of the
map's key set or the not-found list, and the not-found list preserves
the input order (it is a sublist of the input). -/
theorem C2_batch_partition (doc : RawDoc) (sels : List Selector) (hne : sels ≠ []) :
    (ExtractValuesFromReader (some doc) sels).1 ≠ none ∧
    (∀ x ∈ sels,
      mapContainsOpt (ExtractValuesFromReader (some doc) sels).1 x = true ↔
        x ∉ (ExtractValuesFromReader (some doc) sels).2.1) ∧
    (ExtractValuesFromReader (some doc) sels).2.1.Sublist sels := by
  rw [ExtractValuesFromReader_eq doc sels hne]
  have hmc : ∀ y, mapContains (extractLoop doc sels [] []).1 y
      = (sels.contains y && selOk doc y) := by
    intro y
    rw [extractLoop_contains]
    simp [mapContains]
  refine ⟨by simp, ?_, List.filter_sublist sels⟩
  intro x hx
  simp only [mapContainsOpt]
  rw [hmc]
  constructor
  · intro hL hmemf
    rw [List.mem_filter] at hmemf
    obtain ⟨_, hp⟩ := hmemf
    rw [hmc x, hL] at hp
    simp at hp
  · intro hR
    by_contra hL
    apply hR
    rw [List.mem_filter]
    refine ⟨hx, ?_⟩
    show (!(mapContains (extractLoop doc sels [] []).1 x)) = true
    rw [hmc x]
    have hL2 : (sels.contains x && selOk doc x) = false := by simpa using hL
    rw [hL2]
    rfl

/-- C2 witness: against `\x7b"z":1\x7d` with selectors `[z, a]`, the
selector `z` is in the map exactly because it is not in the not-found
list, and the not-found list is a sublist of the input. -/
theorem C2_witness :
    (mapContainsOpt (ExtractValuesFromReader (some docZ) ["z", "a"]).1 "z" = true ↔
      "z" ∉ (ExtractValuesFromReader (some docZ) ["z", "a"]).2.1) ∧
    (ExtractValuesFromReader (some docZ) ["z", "a"]).2.1.Sublist ["z", "a"] := by
  have h := C2_batch_partition docZ ["z", "a"] (by decide)
  exact ⟨h.2.1 "z" (by decide), h.2.2⟩

/-- C7: at a cursor positioned on a JSON array of `n` elements, index
navigation with `0 ≤ i < n` succeeds having skipped exactly the first
`i` elements, leaving the cursor at element `i`; with `i ≥ n`
(including `i = n`) it fails with `IndexOutOfRange` reporting the
target index and the `n` elements actually skipped; and a negative `i`
fails immediately with `IndexOutOfRange` (target index only, no
array length) whatever the cursor is positioned at. -/
theorem C7_array_index_navigation (s : extractState) (es : JsonArr) (i : Int)
    (rest ts : List JTok) :
    (navigateArrayIndex s i (Json.toTokens (.arr es) ++ rest) =
      if i < 0 then
        .error (s.enrichError [.jsonPathTraversalFailed, .jsonIndexOutOfRange]
          [.kv "target_index" (.int i)])
      else if i.toNat < es.length then
        .ok ((es.drop i.toNat).toTokens ++ .arrEnd :: rest)
      else
        .error (s.enrichError [.jsonPathTraversalFailed, .jsonIndexOutOfRange]
          [.kv "target_index" (.int i),
           .kv "array_length" (.int (es.length : Int))])) ∧
    (i < 0 →
      navigateArrayIndex s i ts =
        .error (s.enrichError [.jsonPathTraversalFailed, .jsonIndexOutOfRange]
          [.kv "target_index" (.int i)])) :=
  ⟨navigateArrayIndex_arr s es i rest, navigateArrayIndex_neg s i ts⟩

/-- C7 witness: for the array `[10, 20, 30]`, index 1 leaves the cursor
at `20` with one element skipped, and index `-1` fails immediately even
at a non-array cursor. -/
theorem C7_witness :
    navigateArrayIndex stDemo 1
        (Json.toTokens (.arr (.cons (.int 10) (.cons (.int 20) (.cons (.int 30) .nil))))
          ++ []) =
      .ok [JTok.int 20, JTok.int 30, JTok.arrEnd] ∧
    navigateArrayIndex stDemo (-1) [JTok.null] =
      .error (stDemo.enrichError [.jsonPathTraversalFailed, .jsonIndexOutOfRange]
        [.kv "target_index" (.int (-1))]) := by
  have h := C7_array_index_navigation stDemo
    (.cons (.int 10) (.cons (.int 20) (.cons (.int 30) .nil))) 1 [] [JTok.null]
  have h2 := C7_array_index_navigation stDemo
    (.cons (.int 10) (.cons (.int 20) (.cons (.int 30) .nil))) (-1) [] [JTok.null]
  constructor
  · rw [h.1]
    rfl
  · exact h2.2 (by decide)

/-- C9: during key navigation the decoded key string has one leading
and trailing double-quote character stripped before comparison, so for
an object field whose decoded key itself begins and ends with a quote
character, the selector segment equal to the quote-stripped key matches
it (the cursor stops at its value), while the segment equal to the
actual key string does not (the search skips it — here, exhausting a
singleton object into `PathSegmentNotFound`). -/
theorem C9_quote_stripped_key_matching (s : extractState) (key : String) (v : Json)
    (tl : JsonObj) (rest : List JTok)
    (hlen : 2 ≤ key.data.length)
    (hhead : key.data.headD ' ' = quoteChar)
    (hlast : key.data.getLastD ' ' = quoteChar) :
    (navigateObjectKey s (stripQuotes key)
        (Json.toTokens (.obj (.cons key v tl)) ++ rest) =
      .ok (v.toTokens ++ (tl.toTokens ++ .objEnd :: rest))) ∧
    (navigateObjectKey s key (Json.toTokens (.obj (.cons key v .nil)) ++ rest) =
      .error (s.enrichError [.jsonPathTraversalFailed, .jsonPathSegmentNotFound]
        [.kv "missing_key" (.str key),
         .kv "available_keys" (.strs [stripQuotes key])])) := by
  have hstrip_ne : ¬(stripQuotes key = key) := by
    have hcond : (decide (2 ≤ key.data.length) && (key.data.headD ' ' == quoteChar)
        && (key.data.getLastD ' ' == quoteChar)) = true := by
      rw [hhead, hlast]
      simp only [Bool.and_eq_true, decide_eq_true_eq, beq_self_eq_true, and_true]
      exact hlen
    rw [stripQuotes]
    rw [if_pos hcond]
    intro heq
    have hdata := congrArg (fun t : String => t.data.length) heq
    simp only [List.length_dropLast, List.length_drop] at hdata
    omega
  constructor
  · have hfind : (JsonObj.cons key v tl).findSplit (stripQuotes key) = some (v, tl) := by
      rw [JsonObj.findSplit]
      rw [if_pos (by simp)]
    have hobj := navigateObjectKey_obj s (.cons key v tl) (stripQuotes key) rest
    rw [hfind] at hobj
    exact hobj
  · have hfind : (JsonObj.cons key v .nil).findSplit key = none := by
      rw [JsonObj.findSplit]
      rw [if_neg (by simpa using hstrip_ne)]
      rfl
    have hobj := navigateObjectKey_obj s (.cons key v .nil) key rest
    rw [hfind] at hobj
    simpa [JsonObj.strippedKeys] using hobj

/-- C9 witness: for the object field with decoded key `"x"` (quotes
included) and value `7`, segment `x` reaches the value while the
actual key string does not match. -/
theorem C9_witness :
    navigateObjectKey stDemo (stripQuotes "\"x\"")
        (Json.toTokens (.obj (.cons "\"x\"" (.int 7) .nil)) ++ []) =
      .ok [JTok.int 7, JTok.objEnd] ∧
    navigateObjectKey stDemo "\"x\""
        (Json.toTokens (.obj (.cons "\"x\"" (.int 7) .nil)) ++ []) =
      .error (stDemo.enrichError [.jsonPathTraversalFailed, .jsonPathSegmentNotFound]
        [.kv "missing_key" (.str "\"x\""), .kv "available_keys" (.strs ["x"])]) := by
  have h := C9_quote_stripped_key_matching stDemo "\"x\"" (.int 7) .nil []
    (by decide) (by decide) (by decide)
  exact ⟨h.1, h.2⟩

/-- C8 counterexample: the object whose only decoded key is the
three-character string `"k"` (quotes included) does not contain the key
`k`, yet key navigation for segment `k` succeeds (the quote-stripped
comparison matches) instead of failing with `PathSegmentNotFound` as
the claim requires for an object not containing the key. -/
theorem C8_counterexample :
    JsonObj.keys (JsonObj.cons "\"k\"" (Json.int 1) .nil) = ["\"k\""] ∧
    ¬("k" ∈ JsonObj.keys (JsonObj.cons "\"k\"" (Json.int 1) .nil)) ∧
    navigateObjectKey (newExtractState "k" "x") "k"
        (Json.toTokens (.obj (JsonObj.cons "\"k\"" (Json.int 1) .nil))) =
      .ok [JTok.int 1, JTok.objEnd] :=
  ⟨rfl, by decide, rfl⟩

/-- C8 (amended): for every cursor and non-numeric key segment `k`, key
navigation fails with `ExpectedObjectAtSegment` when the value is not
an object; on an object it stops, without consuming the value, at the
value of the first field whose quote-stripped decoded key equals `k`;
and when no field's quote-stripped key equals `k` it fails with
`PathSegmentNotFound` reporting the target key and the accumulated list
of all (quote-stripped) keys at that level. -/
theorem C8_object_key_navigation (s : extractState) (k : String) (rest : List JTok)
    (hk : atoi k = none) :
    (∀ d : Json, d.isObj = false →
      navigateToSegment s k (d.toTokens ++ rest) =
        .error (s.enrichError [.jsonPathTraversalFailed, .jsonPathExpectedObjectAtSegment]
          [.kv "expected_type" (.str "object"),
           .kv "actual_type" (.str (peekKind (d.toTokens ++ rest)).name)])) ∧
    (∀ fs : JsonObj, navigateToSegment s k (Json.toTokens (.obj fs) ++ rest) =
      match fs.findSplit k with
      | some (v, tl) => .ok (v.toTokens ++ (tl.toTokens ++ .objEnd :: rest))
      | none =>
        .error (s.enrichError [.jsonPathTraversalFailed, .jsonPathSegmentNotFound]
          [.kv "missing_key" (.str k),
           .kv "available_keys" (.strs fs.strippedKeys)])) := by
  constructor
  · intro d hno
    simp only [navigateToSegment, hk]
    exact navigateObjectKey_nonobj s k d rest hno
  · intro fs
    simp only [navigateToSegment, hk]
    exact navigateObjectKey_obj s fs k rest

/-- C8 witness: segment `k` on `\x7b"a":5,"k":7\x7d` stops at `7`
without consuming it, and on the number `3` fails with
`ExpectedObjectAtSegment`. -/
theorem C8_witness :
    navigateToSegment (newExtractState "k" "x") "k"
        (Json.toTokens (.obj (JsonObj.cons "a" (Json.int 5)
          (JsonObj.cons "k" (Json.int 7) .nil))) ++ []) =
      .ok [JTok.int 7, JTok.objEnd] ∧
    navigateToSegment (newExtractState "k" "x") "k"
        (Json.toTokens (.int 3) ++ []) =
      .error ((newExtractState "k" "x").enrichError
        [.jsonPathTraversalFailed, .jsonPathExpectedObjectAtSegment]
        [.kv "expected_type" (.str "object"), .kv "actual_type" (.str "number")]) := by
  have h := C8_object_key_navigation (newExtractState "k" "x") "k" [] rfl
  constructor
  · have h2 := h.2 (JsonObj.cons "a" (Json.int 5) (JsonObj.cons "k" (Json.int 7) .nil))
    rw [h2]
    rfl
  · exact h.1 (.int 3) rfl

/-- C3 counterexample: for the document `\x7b"z":1\x7d` and the
selector `a..b` (which contains an empty segment), extraction does not
fail with `PathContainsEmptySegment`: the first segment `a` is
navigated against the document first and its failure
(`PathSegmentNotFound`) is reported instead — so the empty-segment
check is neither immediate nor free of traversal. -/
theorem C3_counterexample :
    "" ∈ splitDot "a..b" ∧
    resErrIs (extractSingleValue docZ "a..b") .jsonPathContainsEmptySegment = false ∧
    resErrIs (extractSingleValue docZ "a..b") .jsonPathSegmentNotFound = true :=
  ⟨by decide, rfl, rfl⟩

/-- C3 (amended): a selector with an empty segment never extracts a
value; the empty-segment check runs per segment during traversal, so
the segments before the empty one are navigated against the document
first: when they all navigate successfully the error is
`PathContainsEmptySegment` raised from the reached state, and when an
earlier segment fails its traversal error is reported instead. -/
theorem C3_empty_segment_during_traversal (doc : RawDoc) (selector : String) (i : Nat)
    (hsel : selector ≠ "")
    (hi : i < (splitDot selector).length)
    (hempty : (splitDot selector).getD i "" = "") :
    resIsOk (extractSingleValue doc selector) = false ∧
    (∀ s2 ts2,
      navSegments (newExtractState selector doc.raw) 0 ((splitDot selector).take i)
          doc.toks = .ok (s2, ts2) →
      extractSingleValue doc selector =
        .error ({ s2 with position := i }.enrichError
          [.jsonPathTraversalFailed, .jsonPathContainsEmptySegment] [])) ∧
    (∀ e,
      navSegments (newExtractState selector doc.raw) 0 ((splitDot selector).take i)
          doc.toks = .error e →
      extractSingleValue doc selector = .error e) := by
  have hlen0 : ¬(selector.length = 0) := fun h0 =>
    hsel (string_eq_empty_of_length selector h0)
  have hsegs : splitDot selector =
      (splitDot selector).take i ++ "" :: (splitDot selector).drop (i + 1) := by
    conv_lhs => rw [← List.take_append_drop i (splitDot selector)]
    rw [List.drop_eq_getElem_cons hi]
    rw [← List.getD_eq_getElem (splitDot selector) "" hi, hempty]
  have htake : ((splitDot selector).take i).length = i := by
    simp [List.length_take]
    omega
  have hmain : extractSingleValue doc selector =
      match navSegments (newExtractState selector doc.raw) 0 (splitDot selector)
          doc.toks with
      | .error e => .error e
      | .ok (s2, ts2) =>
        match decodeValue ts2 with
        | none =>
          .error (s2.enrichError [.jsonStreamingParseFailed, .jsonUnmarshalFailed] [])
        | some (v, _) => .ok v := by
    rw [extractSingleValue, if_neg hlen0]
    rfl
  rw [hsegs, navSegments_append, htake] at hmain
  simp only [Nat.zero_add] at hmain
  refine ⟨?_, ?_, ?_⟩
  · rw [hmain]
    cases hpre : navSegments (newExtractState selector doc.raw) 0
        ((splitDot selector).take i) doc.toks with
    | error e => rfl
    | ok p =>
      obtain ⟨s2, ts2⟩ := p
      simp [navSegments, resIsOk]
  · intro s2 ts2 hpre
    rw [hmain, hpre]
    simp [navSegments]
  · intro e hpre
    rw [hmain, hpre]

/-- C3 witness: for `\x7b"z":1\x7d` and selector `z..b`, extraction
fails, and — because the segment before the empty one navigates
successfully — it fails with the empty-segment error raised after that
navigation. -/
theorem C3_witness :
    resIsOk (extractSingleValue docZ "z..b") = false ∧
    resErrIs (extractSingleValue docZ "z..b") .jsonPathContainsEmptySegment = true := by
  have h := C3_empty_segment_during_traversal docZ "z..b" 1 (by decide) (by decide)
    (by decide)
  refine ⟨h.1, ?_⟩
  have h2 := h.2.1
    { selector := "z..b", segments := ["z", "", "b"], pathProgress := ["z"],
      position := 0, rawBytes := "\x7b\"z\":1\x7d" }
    [JTok.int 1, JTok.objEnd] rfl
  rw [resErrIs.eq_def, h2]
  rfl

/-- C4 counterexample: against `\x7b"z":1\x7d` the selector `a` ends up
in the not-found result of the one-element batch call, yet the
single-value wrapper does not return the dedicated `SelectorNotFound`
error — it returns the wrapped underlying traversal error
(`PathSegmentNotFound`), and `SelectorNotFound` appears nowhere in it. -/
theorem C4_counterexample :
    (ExtractValuesFromBytes docZ ["a"]).2.1 = ["a"] ∧
    resErrIs (ExtractValueFromBytes docZ "a") .jsonSelectorNotFound = false ∧
    resErrIs (ExtractValueFromBytes docZ "a") .jsonPathSegmentNotFound = true :=
  ⟨rfl, rfl, rfl⟩

/-- C4 (amended): the single-value operations call the batch
orchestrator with a one-element selector list; on success they return
the single resolved value, and whenever the selector's extraction
fails the batch error is non-nil and is returned wrapped in
`FailedToExtractValueFromJSON` (with the batch error as cause).  The
`SelectorNotFound` translation branch is unreachable: a nil batch error
entails an empty not-found list. -/
theorem C4_single_value_wrappers (doc : RawDoc) (sel : Selector) :
    (∀ v, extractSingleValue doc sel = .ok v →
      ExtractValueFromReader (some doc) sel = .ok v ∧
      (doc.raw.length ≠ 0 → ExtractValueFromBytes doc sel = .ok v)) ∧
    (∀ e, extractSingleValue doc sel = .error e →
      ExtractValueFromReader (some doc) sel =
        .error (WithErr [.sent .failedToExtractValueFromJSON,
          .sent .extractingFromJSONByReader, .kv "selector" (.str sel),
          .cause (CombineErrs [e])]) ∧
      (doc.raw.length ≠ 0 → ExtractValueFromBytes doc sel =
        .error (WithErr [.sent .failedToExtractValueFromJSON,
          .sent .extractingFromJSONBytes, .kv "selector" (.str sel),
          .cause (CombineErrs [e])]))) ∧
    ((ExtractValuesFromReader (some doc) [sel]).2.2 = none →
      (ExtractValuesFromReader (some doc) [sel]).2.1 = []) := by
  refine ⟨?_, ?_, ?_⟩
  · intro v hv
    exact ⟨ExtractValueFromReader_of_ok doc sel v hv,
      fun hraw => ExtractValueFromBytes_of_ok doc sel v hv hraw⟩
  · intro e he
    exact ⟨ExtractValueFromReader_of_err doc sel e he,
      fun hraw => ExtractValueFromBytes_of_err doc sel e he hraw⟩
  · intro hnone
    cases hx : extractSingleValue doc sel with
    | ok v => rw [batch_single_ok doc sel v hx]
    | error e =>
      rw [batch_single_err doc sel e hx] at hnone
      exact absurd hnone (by simp)

/-- C4 witness: against `\x7b"z":1\x7d` the selector `z` resolves to
`1`; the selector `a` fails and the returned error carries no
`SelectorNotFound`. -/
theorem C4_witness :
    ExtractValueFromReader (some docZ) "z" = .ok (.num 1) ∧
    resErrIs (ExtractValueFromReader (some docZ) "a") .jsonSelectorNotFound = false ∧
    (ExtractValuesFromReader (some docZ) ["z"]).2.1 = [] := by
  have hz := C4_single_value_wrappers docZ "z"
  have ha := C4_single_value_wrappers docZ "a"
  refine ⟨(hz.1 (.num 1) rfl).1, ?_, hz.2.2 rfl⟩
  have he := (ha.2.1 (resErrOf (extractSingleValue docZ "a")) rfl).1
  rw [resErrIs.eq_def, he]
  rfl

/-- C5 counterexample: on the empty document body, the byte-slice and
reader variants disagree: the byte-slice variant short-circuits with a
nil map, an empty not-found list and a `BodyCannotBeEmpty` error, while
the reader variant processes the selector, lists it as not found, and
reports no `BodyCannotBeEmpty` at all. -/
theorem C5_counterexample :
    (ExtractValuesFromBytes docEmpty ["foo"]).2.1 = [] ∧
    (ExtractValuesFromReader (some docEmpty) ["foo"]).2.1 = ["foo"] ∧
    optErrIs (ExtractValuesFromBytes docEmpty ["foo"]).2.2 .jsonBodyCannotBeEmpty = true ∧
    optErrIs (ExtractValuesFromReader (some docEmpty) ["foo"]).2.2
      .jsonBodyCannotBeEmpty = false :=
  ⟨rfl, rfl, rfl, rfl⟩

/-- C5 (amended): on a non-empty byte buffer the byte-slice variant is
literally the reader variant over the same buffered document; on the
empty body the byte-slice variant fails upfront with
`PathTraversalFailed` and `BodyCannotBeEmpty` (nil map, empty not-found
list), while the reader variant — which only validates a nil reader —
runs every selector against the empty token stream: each fails with a
traversal error, every selector is listed as not found, and the
aggregated error never carries `BodyCannotBeEmpty`. -/
theorem C5_variant_equivalence (doc : RawDoc) (sels : List Selector) :
    (doc.raw.length ≠ 0 →
      ExtractValuesFromBytes doc sels = ExtractValuesFromReader (some doc) sels) ∧
    (doc.raw.length = 0 →
      ExtractValuesFromBytes doc sels =
        (none, [], some (NewErr [.sent .jsonPathTraversalFailed,
          .sent .jsonBodyCannotBeEmpty, .kv "selectors" (.strs sels)]))) ∧
    (doc.toks = [] → sels ≠ [] →
      (ExtractValuesFromReader (some doc) sels).2.1 = sels ∧
      (ExtractValuesFromReader (some doc) sels).2.2 ≠ none ∧
      optErrIs (ExtractValuesFromReader (some doc) sels).2.2
        .jsonBodyCannotBeEmpty = false) := by
  refine ⟨?_, ?_, ?_⟩
  · intro hraw
    rw [ExtractValuesFromBytes, if_neg hraw]
  · intro hraw
    rw [ExtractValuesFromBytes, if_pos hraw]
  · intro hdoc hne
    rw [ExtractValuesFromReader_eq doc sels hne, extractLoop_errs]
    simp only [List.nil_append]
    have hfail : ∀ x : Selector, selOk doc x = false := by
      intro x
      obtain ⟨e, he, _⟩ := extractSingleValue_emptyToks doc hdoc x
      simp [selOk, he]
    have hcontains : ∀ x, mapContains (extractLoop doc sels [] []).1 x = false := by
      intro x
      rw [extractLoop_contains]
      simp [hfail, mapContains]
    refine ⟨?_, ?_, ?_⟩
    · rw [List.filter_eq_self.mpr]
      intro x _
      simp [hcontains]
    · cases sels with
      | nil => exact absurd rfl hne
      | cons s0 rest =>
        obtain ⟨e0, he0, _⟩ := extractSingleValue_emptyToks doc hdoc s0
        simp [List.filterMap_cons, selErr, he0]
    · by_cases hlen : (sels.filterMap (selErr doc)).length = 0
      · simp [hlen, optErrIs]
      · rw [if_neg hlen]
        simp only [optErrIs]
        rw [CombineErrs, errIs]
        simp only [List.contains_nil, Bool.false_or]
        apply errsAny_eq_false
        intro e he
        obtain ⟨x, _, hxe⟩ := List.mem_filterMap.mp he
        obtain ⟨e2, he2, hbc⟩ := extractSingleValue_emptyToks doc hdoc x
        rw [selErr.eq_def, he2] at hxe
        simp only [Option.some.injEq] at hxe
        rw [← hxe]
        exact hbc

/-- C5 witness: the variants agree on `\x7b"z":1\x7d`, and on the
empty document the reader variant lists the selector as not found. -/
theorem C5_witness :
    ExtractValuesFromBytes docZ ["z"] = ExtractValuesFromReader (some docZ) ["z"] ∧
    (ExtractValuesFromReader (some docEmpty) ["foo"]).2.1 = ["foo"] := by
  have h1 := C5_variant_equivalence docZ ["z"]
  have h2 := C5_variant_equivalence docEmpty ["foo"]
  exact ⟨h1.1 (by decide), (h2.2.2 rfl (by decide)).1⟩

/-- C6: for every valid input (non-nil source, non-empty selector list;
the model's reads always succeed), the batch operation returns a
non-nil aggregated error iff at least one selector failed; the
aggregated error's causes are exactly the individual per-selector
errors in input order (each inspectable); and the values map and the
not-found list are still returned alongside, the latter being exactly
the failing selectors in input order. -/
theorem C6_error_aggregation (doc : RawDoc) (sels : List Selector) (hne : sels ≠ []) :
    ((ExtractValuesFromReader (some doc) sels).2.2 = none ↔
      ∀ s ∈ sels, selOk doc s = true) ∧
    (∀ E, (ExtractValuesFromReader (some doc) sels).2.2 = some E →
      E = CombineErrs (sels.filterMap (selErr doc)) ∧
      E.causes = sels.filterMap (selErr doc)) ∧
    (ExtractValuesFromReader (some doc) sels).1 = some (extractLoop doc sels [] []).1 ∧
    (ExtractValuesFromReader (some doc) sels).2.1 =
      sels.filter (fun s => !(selOk doc s)) := by
  rw [ExtractValuesFromReader_eq doc sels hne, extractLoop_errs]
  simp only [List.nil_append]
  refine ⟨?_, ?_, ?_, ?_⟩
  · constructor
    · intro h s hs
      by_cases hlen : (sels.filterMap (selErr doc)).length = 0
      · have hnil : sels.filterMap (selErr doc) = [] := List.length_eq_zero.mp hlen
        have hsome := List.filterMap_eq_nil.mp hnil s hs
        cases hx : extractSingleValue doc s with
        | ok v => simp [selOk, hx]
        | error e => rw [selErr.eq_def, hx] at hsome; simp at hsome
      · rw [if_neg hlen] at h
        exact absurd h (by simp)
    · intro h
      have hnil : sels.filterMap (selErr doc) = [] := by
        rw [List.filterMap_eq_nil]
        intro a ha
        have := h a ha
        cases hx : extractSingleValue doc a with
        | ok v => rw [selErr.eq_def, hx]
        | error e => simp [selOk, hx] at this
      simp [hnil]
  · intro E hE
    by_cases hlen : (sels.filterMap (selErr doc)).length = 0
    · rw [if_pos hlen] at hE
      exact absurd hE (by simp)
    · rw [if_neg hlen] at hE
      simp only [Option.some.injEq] at hE
      rw [← hE]
      exact ⟨rfl, rfl⟩
  · trivial
  · apply List.filter_congr
    intro x hx
    rw [extractLoop_contains]
    simp only [mapContains, List.any_nil, Bool.false_or]
    rw [show sels.contains x = true from List.elem_eq_true_of_mem hx]
    simp

/-- C6 witness: against `\x7b"z":1\x7d`, the list `[z]` yields a nil
error, and the list `[a]` yields an aggregated error whose causes are
exactly the per-selector errors. -/
theorem C6_witness :
    (ExtractValuesFromReader (some docZ) ["z"]).2.2 = none ∧
    (optErrOf (ExtractValuesFromReader (some docZ) ["a"]).2.2).causes =
      (["a"] : List Selector).filterMap (selErr docZ) := by
  have h1 := C6_error_aggregation docZ ["z"] (by decide)
  have h2 := C6_error_aggregation docZ ["a"] (by decide)
  refine ⟨h1.1.mpr (by decide), ?_⟩
  exact (h2.2.1 (optErrOf (ExtractValuesFromReader (some docZ) ["a"]).2.2) rfl).2

/-- C10: a selector occurring several times in the input list is
traversed independently per occurrence: when it resolves, the values
map holds exactly one entry for it and the not-found list none of its
occurrences; when it fails, the not-found list holds one entry per
occurrence and the aggregated error joins one error per failing
occurrence (its causes are the per-occurrence errors, as many as there
are failing occurrences). -/
theorem C10_duplicate_selectors (doc : RawDoc) (sels : List Selector) (x : Selector)
    (hmem : x ∈ sels) (hne : sels ≠ []) :
    (selOk doc x = true →
      entryCount (extractLoop doc sels [] []).1 x = 1 ∧
      (ExtractValuesFromReader (some doc) sels).2.1.count x = 0) ∧
    (selOk doc x = false →
      entryCount (extractLoop doc sels [] []).1 x = 0 ∧
      (ExtractValuesFromReader (some doc) sels).2.1.count x = sels.count x) ∧
    (∀ E, (ExtractValuesFromReader (some doc) sels).2.2 = some E →
      E.causes = sels.filterMap (selErr doc) ∧
      (sels.filterMap (selErr doc)).length =
        (sels.filter fun t => !(selOk doc t)).length) := by
  have hcx : sels.contains x = true := List.elem_eq_true_of_mem hmem
  have hmc : mapContains (extractLoop doc sels [] []).1 x = selOk doc x := by
    rw [extractLoop_contains]
    simp only [mapContains, List.any_nil, Bool.false_or]
    rw [hcx]
    simp
  have hec : entryCount (extractLoop doc sels [] []).1 x =
      if mapContains (extractLoop doc sels [] []).1 x then 1 else 0 :=
    extractLoop_entryCount doc sels [] [] x (by rfl)
  have hnf : (ExtractValuesFromReader (some doc) sels).2.1.count x =
      (if !(selOk doc x) then sels.count x else 0) := by
    rw [ExtractValuesFromReader_eq doc sels hne]
    simp only []
    rw [count_filter_eq]
    rw [show (!(mapContains (extractLoop doc sels [] []).1 x)) = !(selOk doc x) by
      rw [hmc]]
  refine ⟨?_, ?_, ?_⟩
  · intro hok
    rw [hec, hmc, hok, hnf, hok]
    exact ⟨rfl, rfl⟩
  · intro hfail
    rw [hec, hmc, hfail, hnf, hfail]
    exact ⟨rfl, rfl⟩
  · intro E hE
    rw [ExtractValuesFromReader_eq doc sels hne, extractLoop_errs] at hE
    simp only [List.nil_append] at hE
    by_cases hlen : (sels.filterMap (selErr doc)).length = 0
    · rw [if_pos hlen] at hE
      exact absurd hE (by simp)
    · rw [if_neg hlen] at hE
      simp only [Option.some.injEq] at hE
      rw [← hE]
      exact ⟨rfl, filterMap_selErr_length doc sels⟩

/-- C10 witness: against `\x7b"z":1\x7d` with selectors `[a, z, a]`,
`z` has exactly one map entry and the failing `a` appears twice in the
not-found list. -/
theorem C10_witness :
    entryCount (extractLoop docZ ["a", "z", "a"] [] []).1 "z" = 1 ∧
    (ExtractValuesFromReader (some docZ) ["a", "z", "a"]).2.1.count "a" = 2 := by
  have hz := C10_duplicate_selectors docZ ["a", "z", "a"] "z" (by decide) (by decide)
  have ha := C10_duplicate_selectors docZ ["a", "z", "a"] "a" (by decide) (by decide)
  refine ⟨(hz.1 rfl).1, ?_⟩
  have hc := (ha.2.1 rfl).2
  rw [hc]
  rfl
